import Mathlib

/-!
Verification of the kydao crawl-and-ingest engine
(`scripts/clone_kydao_db.py`): a shallow embedding of its string
transforms, retry loop, page parsers, pagination walker, persistence
layer and traversal driver, together with theorems checking the
specification's claims against it.

Library calls of the Python code (HTTP fetches, `urllib.parse.urljoin`,
the BeautifulSoup CSS queries) enter the embedding as explicit function
parameters or as pre-queried structures; the string transforms the code
performs itself (`str.strip`, `str.replace`, the three `re.search`
patterns) are embedded as executable Lean functions.
-/

deriving instance DecidableEq for Except

namespace Kydao

/-- The single-quote character, written via its code point. -/
def sq : Char := Char.ofNat 39

/-- The double-quote character, written via its code point. -/
def dq : Char := Char.ofNat 34

/-- Whitespace as recognised by Python `str.strip()` and by the regex
class matched by the pattern separator (ASCII subset: space, tab,
newline, carriage return, vertical tab, form feed). -/
def pyIsSpace (c : Char) : Bool :=
  c = ' ' || c = Char.ofNat 9 || c = Char.ofNat 10 ||
    c = Char.ofNat 13 || c = Char.ofNat 11 || c = Char.ofNat 12

/-- Python `str.strip()` on a character list: drop leading and trailing
whitespace. -/
def pyStripL (s : List Char) : List Char :=
  ((s.dropWhile pyIsSpace).reverse.dropWhile pyIsSpace).reverse

/-- Python `str.strip()`. -/
def pyStrip (s : String) : String :=
  String.mk (pyStripL s.data)

/-- Python `str.replace("", new)`: with an empty pattern the replacement
is inserted before every character and once at the end, so
`"ab".replace("", "X")` is `"XaXbX"`. -/
def pyReplaceEmptyL (s new : List Char) : List Char :=
  new ++ s.foldr (fun c acc => c :: (new ++ acc)) []

/-- Python `str.replace(old, new)`: leftmost non-overlapping occurrences
of `old` are replaced by `new`; an empty `old` matches at every gap. -/
def pyReplace (s old new : String) : String :=
  if old = "" then String.mk (pyReplaceEmptyL s.data new.data)
  else String.intercalate new (s.splitOn old)

/-- One attempt, anchored at the head of `s`, of the regex
`KEY\s*=\s*['"]([^'"]+)['"]` used for `strMoveList`, `beginFEN` and
`startColor`: the group may open with one quote kind and close with the
other, since the character classes admit both. Returns the captured
group. Greedy matching of `\s*` and `[^'"]+` is complete here (no
backtracking can succeed where the greedy commitment fails), so a plain
scanner is faithful to `re` semantics. -/
def matchAssignAt (key s : List Char) : Option (List Char) :=
  if key.isPrefixOf s then
    match (s.drop key.length).dropWhile pyIsSpace with
    | '=' :: r2 =>
      match r2.dropWhile pyIsSpace with
      | q :: r3 =>
        if q = sq || q = dq then
          match r3.takeWhile (fun c => !(c = sq || c = dq)),
                r3.dropWhile (fun c => !(c = sq || c = dq)) with
          | g :: gs, _ :: _ => some (g :: gs)
          | _, _ => none
        else none
      | [] => none
    | _ => none
  else none

/-- `re.search` for `KEY\s*=\s*['"]([^'"]+)['"]`: try every position left
to right and return the first captured group. -/
def searchAssignL (key : List Char) : List Char → Option (List Char)
  | [] => none
  | c :: rest =>
    match matchAssignAt key (c :: rest) with
    | some g => some g
    | none => searchAssignL key rest

/-- String wrapper for `searchAssignL`. -/
def searchAssign (key s : String) : Option String :=
  (searchAssignL key.data s.data).map String.mk

/-- One attempt, anchored at the head of `s`, of the regex
`StartBoard\('([^']+)'` extracting the board nonce. -/
def matchStartBoardAt (s : List Char) : Option (List Char) :=
  let lit := "StartBoard(".data ++ [sq]
  if lit.isPrefixOf s then
    let r := s.drop lit.length
    match r.takeWhile (fun c => !(c = sq)), r.dropWhile (fun c => !(c = sq)) with
    | g :: gs, _ :: _ => some (g :: gs)
    | _, _ => none
  else none

/-- `re.search` for `StartBoard\('([^']+)'`. -/
def searchStartBoardL : List Char → Option (List Char)
  | [] => none
  | c :: rest =>
    match matchStartBoardAt (c :: rest) with
    | some g => some g
    | none => searchStartBoardL rest

/-- String wrapper for `searchStartBoardL`. -/
def searchStartBoard (s : String) : Option String :=
  (searchStartBoardL s.data).map String.mk

/-- In-memory player record (dataclass `Player`). -/
structure Player where
  name : String
  url : String
  id : Option Nat
deriving DecidableEq

/-- In-memory event record (dataclass `Event`). -/
structure Event where
  name : String
  id : Option Nat
deriving DecidableEq

/-- In-memory game record (dataclass `PlayerGame`). `move_list` holds the
raw move string the code actually assigns. -/
structure PlayerGame where
  red_player : String
  black_player : String
  event : String
  url : String
  result : String
  id : Option Nat
  red_player_id : Option Nat
  black_player_id : Option Nat
  event_id : Option Nat
  move_list : Option String
  begin_fen : Option String
  start_color : Option String
deriving DecidableEq

/-- One pagination capture (dataclass `GameList`). -/
structure GameList where
  html : String
  url : String
deriving DecidableEq

/-- An `<a>` element as the parser consumes it: the extracted text
(`get_text(" ", strip=True)`) and the optional `href` attribute. -/
structure Anchor where
  text : String
  href : Option String
deriving DecidableEq

/-- A `div.game` container of a listing page, abstracted to the four
sub-element queries `parse_game_links` makes on it. -/
structure GameDiv where
  red : Option Anchor
  black : Option Anchor
  result : Option Anchor
  event : Option Anchor
deriving DecidableEq

/-- The `#game` frame element of a detail page: its optional `src`. -/
structure Frame where
  src : Option String
deriving DecidableEq

/-- A game detail page, abstracted to the single query `parse_game`
makes on it (`soup.select_one("#game")`). -/
structure DetailDoc where
  gameFrame : Option Frame
deriving DecidableEq

/-- Stored player document (MongoDB `players` collection). -/
structure PlayerDoc where
  id : Nat
  name : String
  url : String
deriving DecidableEq

/-- Stored event document (MongoDB `events` collection). -/
structure EventDoc where
  id : Nat
  name : String
deriving DecidableEq

/-- Stored game document (MongoDB `games` collection). -/
structure GameDoc where
  id : Nat
  red_player_id : Nat
  black_player_id : Nat
  event_id : Nat
  url : String
  result : String
  move_list : Option String
  begin_fen : Option String
  start_color : Option String
deriving DecidableEq

/-- The document store: the three collections in insertion order, plus a
counter supplying fresh `_id` values. -/
structure Store where
  players : List PlayerDoc
  events : List EventDoc
  games : List GameDoc
  nextId : Nat
deriving DecidableEq

/-- The module-level in-memory registries `players` and `events`
(insertion-ordered dicts, modelled as association lists whose keys are
unique in any state the program reaches). -/
structure Reg where
  players : List (String × Player)
  events : List (String × Event)
deriving DecidableEq

/-- Dict lookup: the binding of the key, searching left to right. -/
def alookup {β : Type} (k : String) : List (String × β) → Option β
  | [] => none
  | (k2, v) :: rest => if k2 = k then some v else alookup k rest

/-- Dict value update at an existing key
(as in `players[name].id = ...`). -/
def aupdate {β : Type} (k : String) (f : β → β) :
    List (String × β) → List (String × β)
  | [] => []
  | (k2, v) :: rest =>
    if k2 = k then (k2, f v) :: rest else (k2, v) :: aupdate k f rest

/-- `find_one_and_update({"name": name}, {"$setOnInsert": ...},
upsert=True, return_document=AFTER)` on the players collection: return
the first existing document with that name unchanged, or insert a fresh
one carrying the given fields. -/
def upsertPlayerDoc (st : Store) (name url : String) : PlayerDoc × Store :=
  match st.players.find? (fun d => d.name == name) with
  | some d => (d, st)
  | none =>
    let d : PlayerDoc := ⟨st.nextId, name, url⟩
    (d, { st with players := st.players ++ [d], nextId := st.nextId + 1 })

/-- `find_one_and_update({"name": name}, {"$setOnInsert": ...},
upsert=True, return_document=AFTER)` on the events collection. -/
def upsertEventDoc (st : Store) (name : String) : EventDoc × Store :=
  match st.events.find? (fun d => d.name == name) with
  | some d => (d, st)
  | none =>
    let d : EventDoc := ⟨st.nextId, name⟩
    (d, { st with events := st.events ++ [d], nextId := st.nextId + 1 })

/-- The `$set` document `save_game` builds for the games collection. -/
structure GameUpdate where
  red_player_id : Nat
  black_player_id : Nat
  event_id : Nat
  url : String
  result : String
  move_list : Option String
  begin_fen : Option String
  start_color : Option String
deriving DecidableEq

/-- Apply the `$set` document to an existing game document: every listed
field is overwritten, `_id` is kept. -/
def setGameFields (d : GameDoc) (u : GameUpdate) : GameDoc :=
  ⟨d.id, u.red_player_id, u.black_player_id, u.event_id, u.url, u.result,
   u.move_list, u.begin_fen, u.start_color⟩

/-- `update_one({"url": u.url}, {"$set": u}, upsert=True)`, match part:
modify the first document matching the url, or report no match. -/
def updateFirstGame (u : GameUpdate) : List GameDoc → Option (List GameDoc)
  | [] => none
  | d :: ds =>
    if d.url == u.url then some (setGameFields d u :: ds)
    else (updateFirstGame u ds).map (fun l => d :: l)

/-- `update_one({"url": u.url}, {"$set": u}, upsert=True)`: modify the
first matching document, or insert when none matches. Returns the
`upserted_id` together with the new store. -/
def upsertGameDoc (st : Store) (u : GameUpdate) : Option Nat × Store :=
  match updateFirstGame u st.games with
  | some gs => (none, { st with games := gs })
  | none =>
    let d : GameDoc := ⟨st.nextId, u.red_player_id, u.black_player_id,
      u.event_id, u.url, u.result, u.move_list, u.begin_fen, u.start_color⟩
    (some st.nextId, { st with games := st.games ++ [d], nextId := st.nextId + 1 })

/-- The url `save_game` places in the player `$setOnInsert` document,
read from the in-memory registry. -/
def regPlayerUrl (reg : Reg) (name : String) : String :=
  match alookup name reg.players with
  | some p => p.url
  | none => ""

/-- How `save_game` fills the in-memory game's `id`: from the
`upserted_id` when the game document was inserted, otherwise from a
`find_one` by url on the updated collection. -/
def assignGameId (g1 : PlayerGame) (ups : Option Nat) (gs : List GameDoc) :
    PlayerGame :=
  match ups with
  | some i => { g1 with id := some i }
  | none =>
    match gs.find? (fun d => d.url == g1.url) with
    | some ex => { g1 with id := some ex.id }
    | none => g1

/-- `save_game`: upsert red player, black player and event documents
(insert-if-absent by `name`), upsert the game document by `url`
(insert-or-replace of its non-key fields), assign the resulting store
ids to the in-memory game, and refresh the in-memory caches. This is
the successful path; in the source the function is additionally a
logged no-op when the store driver is unavailable, and store errors are
caught and logged without propagating. -/
def save_game (reg : Reg) (st : Store) (g : PlayerGame) :
    Reg × Store × PlayerGame :=
  let r1 := upsertPlayerDoc st g.red_player (regPlayerUrl reg g.red_player)
  let r2 := upsertPlayerDoc r1.2 g.black_player (regPlayerUrl reg g.black_player)
  let r3 := upsertEventDoc r2.2 g.event
  let g1 := { g with red_player_id := some r1.1.id,
                     black_player_id := some r2.1.id,
                     event_id := some r3.1.id }
  let u : GameUpdate := ⟨r1.1.id, r2.1.id, r3.1.id, g1.url, g1.result,
    g1.move_list, g1.begin_fen, g1.start_color⟩
  let r4 := upsertGameDoc r3.2 u
  let g2 := assignGameId g1 r4.1 r4.2.games
  let ps1 :=
    if (alookup g.red_player reg.players).isSome then
      aupdate g.red_player (fun p => { p with id := g2.red_player_id }) reg.players
    else reg.players
  let ps2 :=
    if (alookup g.black_player reg.players).isSome then
      aupdate g.black_player (fun p => { p with id := g2.black_player_id }) ps1
    else ps1
  let evs :=
    match alookup g.event reg.events with
    | some _ => reg.events
    | none => reg.events ++ [(g.event, ⟨g.event, g2.event_id⟩)]
  (⟨ps2, evs⟩, r4.2, g2)

/-- Exceptions `parse_game` can surface: the `ValueError` raised for a
missing `#game` frame, or a propagated fetch failure for the
sub-document. -/
inductive PGErr (ε : Type) where
  | noGameFrame
  | fetchError (e : ε)
deriving DecidableEq

/-- True when a detail page has no `#game` frame with a truthy `src`
(the element is absent, or its `src` attribute is absent or empty). -/
def noValidFrame (doc : DetailDoc) : Bool :=
  match doc.gameFrame with
  | none => true
  | some fr =>
    match fr.src with
    | none => true
    | some s => s == ""

/-- The pattern-extraction body of `parse_game` over the fetched
sub-document text: extract `strMoveList` (stripped, then subjected to
the substitution exactly as written in the source,
`moves_str.replace("", nonce)` with the nonce captured from
`StartBoard('...')` or `""` when absent), then `beginFEN`, then
`startColor`, each only assigned when its pattern matches. -/
def enrichGame (g : PlayerGame) (frame_html : String) : PlayerGame :=
  let g1 :=
    match searchAssign "strMoveList" frame_html with
    | some mv =>
      let nonce := (searchStartBoard frame_html).getD ""
      { g with move_list := some (pyReplace (pyStrip mv) "" nonce) }
    | none => { g with move_list := none }
  let g2 :=
    match searchAssign "beginFEN" frame_html with
    | some f => { g1 with begin_fen := some f }
    | none => g1
  match searchAssign "startColor" frame_html with
  | some c => { g2 with start_color := some c }
  | none => g2

/-- `parse_game`: locate the `#game` frame, fetch its `src` sub-document,
run the pattern extraction over it, persist via `save_game`, and return
the updated game. `uj` is `urllib.parse.urljoin` and `fetchHtml` the
`fetch_html` network call, both passed in as the environment. -/
def parse_game {ε : Type} (uj : String → String → String)
    (fetchHtml : String → Except ε String) (doc : DetailDoc)
    (base_url : String) (g : PlayerGame) (reg : Reg) (st : Store) :
    Except (PGErr ε) (PlayerGame × Reg × Store) :=
  match doc.gameFrame with
  | none => .error .noGameFrame
  | some fr =>
    match fr.src with
    | none => .error .noGameFrame
    | some src =>
      if src = "" then .error .noGameFrame
      else
        let frame_url := pyStrip src
        let frame_abs := uj base_url frame_url
        match fetchHtml frame_abs with
        | .error e => .error (.fetchError e)
        | .ok frame_html =>
          let r := save_game reg st (enrichGame g frame_html)
          .ok (r.2.2, r.1, r.2.1)

/-- One `div.game` iteration of `parse_game_links`: skip the container
when any of the four sub-elements is missing or the result `href` is
empty, otherwise build the stub, attempt enrichment (`fetch_html` of
the detail page followed by `parse_game`), and yield the stub even when
enrichment raised. `soupDetail` abstracts the BeautifulSoup parse of
the fetched detail markup. -/
def processDiv {ε : Type} (uj : String → String → String)
    (fetchHtml : String → Except ε String) (soupDetail : String → DetailDoc)
    (base_url : String) (acc : List PlayerGame × Reg × Store)
    (d : GameDiv) : List PlayerGame × Reg × Store :=
  match d.red, d.black, d.result, d.event with
  | some ar, some ab, some ares, some aev =>
    let game_url := pyStrip ((ares.href).getD "")
    if game_url = "" then acc
    else
      let abs_game_url := uj base_url game_url
      let g : PlayerGame :=
        ⟨ar.text, ab.text, aev.text, abs_game_url, ares.text,
         none, none, none, none, none, none, none⟩
      match fetchHtml abs_game_url with
      | .error _ => (acc.1 ++ [g], acc.2.1, acc.2.2)
      | .ok game_html =>
        match parse_game uj fetchHtml (soupDetail game_html) abs_game_url g
            acc.2.1 acc.2.2 with
        | .ok r => (acc.1 ++ [r.1], r.2.1, r.2.2)
        | .error _ => (acc.1 ++ [g], acc.2.1, acc.2.2)
  | _, _, _, _ => acc

/-- `parse_game_links`: fetch the listing page, iterate its `div.game`
containers, and return the games the generator yields (driven to
completion) together with the updated registries and store. `soupDivs`
abstracts the `div.game` selection over the fetched markup. -/
def parse_game_links {ε : Type} (uj : String → String → String)
    (fetchHtml : String → Except ε String) (soupDivs : String → List GameDiv)
    (soupDetail : String → DetailDoc) (base_url : String) (reg : Reg)
    (st : Store) : Except ε (List PlayerGame × Reg × Store) :=
  match fetchHtml base_url with
  | .error e => .error e
  | .ok html =>
    .ok ((soupDivs html).foldl (processDiv uj fetchHtml soupDetail base_url)
      ([], reg, st))

/-- Final outcome of one `fetch_html` call: success, the re-raised last
attempt error, or the trailing `RuntimeError` reached only when the
retry loop body never runs (`retries = 0`). -/
inductive FetchResult (ε : Type) where
  | ok (text : String)
  | failed (e : ε)
  | exhausted
deriving DecidableEq

/-- Observable trace of one `fetch_html` call: how many attempts were
made, the sleeps performed between consecutive attempts (in order, as
powers of the backoff factor), and the final outcome. The backoff
factor, a Python float in the source, is modelled as a rational. -/
structure FetchTrace (ε : Type) where
  attempts : Nat
  sleeps : List ℚ
  result : FetchResult ε
deriving DecidableEq

/-- The retry loop of `fetch_html`, at attempt number `attempt` with
`fuel` attempts remaining: run the attempt; on failure either sleep
`backoff ^ (attempt - 1)` and continue, or re-raise on the last
attempt. `outcome k` is what the network does to attempt number `k`. -/
def fetchGo {ε : Type} (outcome : Nat → Except ε String) (backoff : ℚ) :
    Nat → Nat → FetchTrace ε
  | _, 0 => ⟨0, [], .exhausted⟩
  | attempt, fuel + 1 =>
    match outcome attempt with
    | .ok t => ⟨1, [], .ok t⟩
    | .error e =>
      if fuel = 0 then ⟨1, [], .failed e⟩
      else
        let rest := fetchGo outcome backoff (attempt + 1) fuel
        ⟨rest.attempts + 1, backoff ^ (attempt - 1) :: rest.sleeps, rest.result⟩

/-- `fetch_html` with injected attempt outcomes: the loop runs over
`range(1, retries + 1)`, so attempts are numbered `1 .. retries`; with
`retries = 0` the body never runs and the trailing `RuntimeError` is
raised. -/
def fetch_html {ε : Type} (outcome : Nat → Except ε String) (retries : Nat)
    (backoff : ℚ) : FetchTrace ε :=
  fetchGo outcome backoff 1 retries

/-- The `while True` loop of `parse_pagination_links`. `nextA` abstracts
`select_one("#Content_pager_lblnext > a")` over the current page's
markup. Each iteration terminates the walk (no anchor, empty href, seen
URL, page ceiling reached, fetch failure) or yields one fresh page;
`fuel` bounds the recursion and, instantiated with `max_pages` by the
wrapper, is never exhausted before the ceiling check fires, because
every recursive call increments `pages_fetched`. -/
def paginGo {ε : Type} (uj : String → String → String)
    (fetchHtml : String → Except ε String) (nextA : String → Option Anchor)
    (base_url : String) (max_pages : Nat) :
    String → List String → Nat → Nat → List GameList
  | _, _, _, 0 => []
  | html, seen, pages_fetched, fuel + 1 =>
    match nextA html with
    | none => []
    | some a =>
      let href := pyStrip ((a.href).getD "")
      if href = "" then []
      else
        let abs_url := uj base_url href
        if abs_url ∈ seen ∨ pages_fetched ≥ max_pages then []
        else
          match fetchHtml abs_url with
          | .error _ => []
          | .ok h2 =>
            ⟨h2, abs_url⟩ :: paginGo uj fetchHtml nextA base_url max_pages
              h2 (abs_url :: seen) (pages_fetched + 1) fuel

/-- `parse_pagination_links`: fetch the starting page, always yield it
first, then follow next links under the visited set and the
`max_pages` ceiling. A failed initial fetch propagates out of the
generator before anything is yielded. -/
def parse_pagination_links {ε : Type} (uj : String → String → String)
    (fetchHtml : String → Except ε String) (nextA : String → Option Anchor)
    (base_url : String) (max_pages : Nat) : Except ε (List GameList) :=
  match fetchHtml base_url with
  | .error e => .error e
  | .ok html =>
    .ok (⟨html, base_url⟩ ::
      paginGo uj fetchHtml nextA base_url max_pages html [base_url] 1 max_pages)

/-- Dedup key of a game: `(red_player, black_player, event, url)`. -/
def gameIdentity (g : PlayerGame) : String × String × String × String :=
  (g.red_player, g.black_player, g.event, g.url)

/-- The run-wide mutable state of the traversal driver: in-memory
registries, document store, dedup set, FIFO discovery queue, plus a log
of every name ever appended to the queue (instrumentation that lets the
at-most-once enqueue property be stated; the source never reads it). -/
structure CrawlState where
  reg : Reg
  store : Store
  games : List (String × String × String × String)
  queue : List Player
  appended : List String
deriving DecidableEq

/-- Dedup-and-persist block of the driver loop body: when the identity
is new, mark it seen and persist via `save_game`. -/
def stepSeen (s : CrawlState) (g : PlayerGame) : CrawlState :=
  if gameIdentity g ∈ s.games then s
  else
    let r := save_game s.reg s.store g
    { s with games := gameIdentity g :: s.games, reg := r.1, store := r.2.1 }

/-- Red-player discovery block of the loop body: register the name and
enqueue the player when it is not yet in the registry. -/
def stepRed (s : CrawlState) (g : PlayerGame) : CrawlState :=
  match alookup g.red_player s.reg.players with
  | some _ => s
  | none =>
    { s with
      reg := ⟨s.reg.players ++ [(g.red_player, ⟨g.red_player, "", none⟩)],
              s.reg.events⟩,
      queue := s.queue ++ [⟨g.red_player, "", none⟩],
      appended := s.appended ++ [g.red_player] }

/-- Black-player discovery block of the loop body. -/
def stepBlack (s : CrawlState) (g : PlayerGame) : CrawlState :=
  match alookup g.black_player s.reg.players with
  | some _ => s
  | none =>
    { s with
      reg := ⟨s.reg.players ++ [(g.black_player, ⟨g.black_player, "", none⟩)],
              s.reg.events⟩,
      queue := s.queue ++ [⟨g.black_player, "", none⟩],
      appended := s.appended ++ [g.black_player] }

/-- Event discovery block of the loop body. -/
def stepEvent (s : CrawlState) (g : PlayerGame) : CrawlState :=
  match alookup g.event s.reg.events with
  | some _ => s
  | none =>
    { s with reg := ⟨s.reg.players,
        s.reg.events ++ [(g.event, ⟨g.event, none⟩)]⟩ }

/-- The per-game body of the driver loop in `parse_home_page`: mark the
identity seen and persist if it is new, then register red player, black
player and event if their names are new, appending fresh players to the
discovery queue. -/
def processGame (s : CrawlState) (g : PlayerGame) : CrawlState :=
  stepEvent (stepBlack (stepRed (stepSeen s g) g) g) g

/-- Processing, in order, every game yielded from one listing page. -/
def processGames (s : CrawlState) (gs : List PlayerGame) : CrawlState :=
  gs.foldl processGame s

/-! ## Sanity checks of the string embedding -/

example : pyReplace "ab" "" "N" = "NaNbN" := by decide

example : pyReplace "ab" "" "" = "ab" := by decide

example : pyStrip " a b " = "a b" := by decide

/-! ## C1: move-list nonce substitution -/

/-- A one-character string holding the single quote. -/
def sqs : String := String.mk [sq]

/-- Sub-document text carrying a single-quoted move-list assignment with
no placeholder marker in the move string, and a board nonce. -/
def c1Frame : String :=
  "var strMoveList = " ++ sqs ++ "ab" ++ sqs ++ "; StartBoard(" ++ sqs ++
    "N" ++ sqs ++ ", 1);"

/-- The same sub-document without the board-nonce token. -/
def c1FrameNoNonce : String := "var strMoveList = " ++ sqs ++ "ab" ++ sqs ++ ";"

/-- A detail page whose `#game` frame has `src = "f"`. -/
def c1Doc : DetailDoc := ⟨some ⟨some "f"⟩⟩

/-- A urljoin stub returning the href unchanged. -/
def c1Uj : String → String → String := fun _ h => h

/-- A bare game stub. -/
def c1Stub : PlayerGame :=
  ⟨"R", "B", "E", "u", "1-0", none, none, none, none, none, none, none⟩

/-- Empty in-memory registries. -/
def c1Reg : Reg := ⟨[], []⟩

/-- Empty document store. -/
def c1Store : Store := ⟨[], [], [], 0⟩

/-- Projection: the stored `move_list` of a successful `parse_game`. -/
def moveListOf {ε : Type} (r : Except (PGErr ε) (PlayerGame × Reg × Store)) :
    Option (Option String) :=
  match r with
  | .ok x => some x.1.move_list
  | .error _ => none

/-- C1: evaluation of `parse_game` at the failing input. With sub-document
text carrying move string `"ab"` (no placeholder marker) and board nonce
`"N"`, the code stores `"NaNbN"`: `moves_str.replace("", nonce)` inserts
the nonce at every character boundary instead of substituting placeholder
markers, so a marker-free move string is not stored unchanged, contrary to
the claim. When no nonce is found, the code does store the extracted
string unchanged (third conjunct), as the claim says. -/
theorem C1_move_marker_substitution :
    moveListOf (parse_game c1Uj (fun _ => (Except.ok c1Frame : Except Unit String))
        c1Doc "b" c1Stub c1Reg c1Store) = some (some "NaNbN") ∧
    "NaNbN" ≠ "ab" ∧
    moveListOf (parse_game c1Uj
        (fun _ => (Except.ok c1FrameNoNonce : Except Unit String))
        c1Doc "b" c1Stub c1Reg c1Store) = some (some "ab") := by
  refine ⟨by decide, by decide, by decide⟩

/-! ## C2: fetch retry exhaustion -/

/-- When every attempt in the window fails, the retry loop makes exactly
`fuel` attempts starting at attempt number `attempt`, sleeps
`backoff ^ (k - 1)` after each failed attempt `k` but the last, and
re-raises the last attempt's error. -/
theorem fetchGo_all_fail {ε : Type} (outcome : Nat → Except ε String)
    (errOf : Nat → ε) (backoff : ℚ) :
    ∀ fuel attempt, 1 ≤ attempt → 1 ≤ fuel →
      (∀ k, attempt ≤ k → k < attempt + fuel → outcome k = .error (errOf k)) →
      fetchGo outcome backoff attempt fuel =
        ⟨fuel, (List.range (fuel - 1)).map (fun j => backoff ^ (attempt - 1 + j)),
          .failed (errOf (attempt + fuel - 1))⟩ := by
  intro fuel
  induction fuel with
  | zero => intro attempt _ h2 _; exact absurd h2 (by omega)
  | succ f ih =>
    intro attempt h1 _ hout
    have hat : outcome attempt = .error (errOf attempt) :=
      hout attempt le_rfl (by omega)
    cases f with
    | zero =>
      simp only [fetchGo, hat]
      norm_num
    | succ f2 =>
      have hrest := ih (attempt + 1) (by omega) (by omega)
        (fun k hk1 hk2 => hout k (by omega) (by omega))
      have hstep : fetchGo outcome backoff attempt (f2 + 1 + 1) =
          ⟨(fetchGo outcome backoff (attempt + 1) (f2 + 1)).attempts + 1,
            backoff ^ (attempt - 1) ::
              (fetchGo outcome backoff (attempt + 1) (f2 + 1)).sleeps,
            (fetchGo outcome backoff (attempt + 1) (f2 + 1)).result⟩ := by
        conv_lhs => rw [fetchGo]
        rw [hat]
        dsimp only
        rw [if_neg (by omega)]
      rw [hstep, hrest]
      dsimp only
      rw [FetchTrace.mk.injEq]
      refine ⟨rfl, ?_, ?_⟩
      · have hr : f2 + 1 + 1 - 1 = f2 + 1 := by omega
        have hs : f2 + 1 - 1 = f2 := by omega
        rw [hr, hs, List.range_succ_eq_map, List.map_cons, List.map_map]
        rw [List.cons.injEq]
        refine ⟨?_, ?_⟩
        · have h0 : attempt - 1 + 0 = attempt - 1 := by omega
          rw [h0]
        · apply List.map_congr_left
          intro j hj
          simp only [Function.comp_apply]
          have hj2 : attempt + 1 - 1 + j = attempt - 1 + (j + 1) := by omega
          rw [hj2]
      · have harg : attempt + 1 + (f2 + 1) - 1 = attempt + (f2 + 1 + 1) - 1 := by omega
        rw [harg]

/-- C2: for every URL against which every fetch attempt fails,
`fetch_html` with `retries = n ≥ 1` performs exactly `n` attempts,
sleeping `backoff ^ (attempt - 1)` between consecutive attempts (the
sleep after attempt `k` is `backoff ^ (k - 1)`, for `k = 1 .. n - 1`),
and then surfaces the error of the last attempt. -/
theorem C2_fetch_retry_exhaustion {ε : Type} (outcome : Nat → Except ε String)
    (errOf : Nat → ε) (n : Nat) (backoff : ℚ) (hn : 1 ≤ n)
    (hfail : ∀ k, 1 ≤ k → k ≤ n → outcome k = .error (errOf k)) :
    fetch_html outcome n backoff =
      ⟨n, (List.range (n - 1)).map (fun j => backoff ^ j), .failed (errOf n)⟩ := by
  have h := fetchGo_all_fail outcome errOf backoff n 1 le_rfl hn
    (fun k hk1 hk2 => hfail k hk1 (by omega))
  unfold fetch_html
  rw [h]
  congr 1
  · apply List.map_congr_left
    intro j hj
    congr 1
    omega
  · have h2 : 1 + n - 1 = n := by omega
    rw [h2]

/-- Witness for C2: `retries = 3`, `backoff = 2`, an endpoint that always
fails: exactly 3 attempts, sleeps `[2 ^ 0, 2 ^ 1]`, last error surfaced. -/
theorem C2_fetch_retry_exhaustion_witness :
    fetch_html (fun _ => (Except.error 0 : Except Nat String)) 3 2 =
      ⟨3, [1, 2], .failed 0⟩ := by
  have h := C2_fetch_retry_exhaustion (fun _ => (Except.error 0 : Except Nat String))
    (fun _ => 0) 3 2 (by norm_num) (fun k _ _ => rfl)
  rw [h]
  norm_num [List.range_succ]

/-! ## C4, C5, C9: the pagination walker -/

/-- Along an infinite chain of fresh valid next links, the pagination
loop keeps yielding until the fuel or the page ceiling stops it:
starting from page `k` it yields `min fuel (max_pages - pages_fetched)`
further pages, in chain order. -/
theorem paginGo_chain {ε : Type} (uj : String → String → String)
    (fetchHtml : String → Except ε String) (nextA : String → Option Anchor)
    (url html : Nat → String) (a : Nat → Anchor) (mp : Nat)
    (hinj : Function.Injective url)
    (hfetch : ∀ k, fetchHtml (url k) = .ok (html k))
    (hnext : ∀ k, nextA (html k) = some (a k))
    (hhref : ∀ k, pyStrip (((a k).href).getD "") ≠ "")
    (hjoin : ∀ k, uj (url 0) (pyStrip (((a k).href).getD "")) = url (k + 1)) :
    ∀ fuel pf k (seen : List String),
      (∀ x ∈ seen, ∃ j, j ≤ k ∧ x = url j) →
      paginGo uj fetchHtml nextA (url 0) mp (html k) seen pf fuel =
        (List.range (min fuel (mp - pf))).map
          (fun i => ⟨html (k + 1 + i), url (k + 1 + i)⟩) := by
  intro fuel
  induction fuel with
  | zero =>
    intro pf k seen hseen
    simp [paginGo]
  | succ f ih =>
    intro pf k seen hseen
    have hmem : url (k + 1) ∉ seen := by
      intro hx
      obtain ⟨j, hj, hx2⟩ := hseen _ hx
      have := hinj hx2
      omega
    conv_lhs => rw [paginGo]
    rw [hnext k]
    dsimp only
    rw [if_neg (hhref k)]
    rw [hjoin k]
    by_cases hpf : pf ≥ mp
    · rw [if_pos (Or.inr hpf)]
      have hz : mp - pf = 0 := by omega
      rw [hz]
      simp
    · rw [if_neg (by push_neg; exact ⟨hmem, by omega⟩)]
      rw [hfetch (k + 1)]
      dsimp only
      rw [ih (pf + 1) (k + 1) (url (k + 1) :: seen) (by
        intro x hx
        rcases List.mem_cons.mp hx with hx | hx
        · exact ⟨k + 1, le_rfl, hx⟩
        · obtain ⟨j, hj, e⟩ := hseen x hx
          exact ⟨j, by omega, e⟩)]
      have hmin : min (f + 1) (mp - pf) = min f (mp - (pf + 1)) + 1 := by omega
      rw [hmin, List.range_succ_eq_map, List.map_cons, List.map_map]
      rw [List.cons.injEq]
      constructor
      · simp
      · apply List.map_congr_left
        intro i hi
        simp only [Function.comp_apply]
        have h1 : k + 1 + 1 + i = k + 1 + (i + 1) := by omega
        rw [h1]

/-- C4 (amended: for `max_pages = m ≥ 1`): over a chain of pages each
carrying a valid, previously unseen next link, the walker yields exactly
`m` pages, the starting page first. (With `m = 0` the starting page is
still yielded, so the sequence has 1 page, not 0 — see the
counterexample.) -/
theorem C4_pagination_ceiling {ε : Type} (uj : String → String → String)
    (fetchHtml : String → Except ε String) (nextA : String → Option Anchor)
    (url html : Nat → String) (a : Nat → Anchor) (mp : Nat)
    (hinj : Function.Injective url)
    (hfetch : ∀ k, fetchHtml (url k) = .ok (html k))
    (hnext : ∀ k, nextA (html k) = some (a k))
    (hhref : ∀ k, pyStrip (((a k).href).getD "") ≠ "")
    (hjoin : ∀ k, uj (url 0) (pyStrip (((a k).href).getD "")) = url (k + 1))
    (hmp : 1 ≤ mp) :
    parse_pagination_links uj fetchHtml nextA (url 0) mp =
      .ok ((List.range mp).map (fun k => ⟨html k, url k⟩)) := by
  unfold parse_pagination_links
  rw [hfetch 0]
  dsimp only
  rw [paginGo_chain uj fetchHtml nextA url html a mp hinj hfetch hnext hhref
    hjoin mp 1 0 [url 0] (by
      intro x hx
      rcases List.mem_cons.mp hx with hx | hx
      · exact ⟨0, le_rfl, hx⟩
      · exact absurd hx (List.not_mem_nil x))]
  have hmin : min mp (mp - 1) = mp - 1 := by omega
  rw [hmin]
  congr 1
  conv_rhs => rw [show mp = mp - 1 + 1 from by omega]
  rw [List.range_succ_eq_map, List.map_cons, List.map_map]
  rw [List.cons.injEq]
  constructor
  · simp
  · apply List.map_congr_left
    intro i hi
    simp only [Function.comp_apply]
    have h1 : 0 + 1 + i = i + 1 := by omega
    rw [h1]

/-- Url (and, doubling as markup, html) of page `k` in a concrete
infinite chain of fresh pages: `k + 1` copies of `a`. -/
def wUrl (k : Nat) : String := String.mk (List.replicate (k + 1) 'a')

/-- A urljoin stub returning the href unchanged. -/
def wUj : String → String → String := fun _ h => h

/-- A fetcher for the chain: every page's markup is its url. -/
def wFetch : String → Except Unit String := fun u => .ok u

/-- Next-anchor query for the chain: always one more `a`. -/
def wNext : String → Option Anchor := fun h => some ⟨"next", some (h ++ "a")⟩

/-- The next anchor found on page `k` of the chain. -/
def wA (k : Nat) : Anchor := ⟨"next", some (wUrl (k + 1))⟩

/-- The chain pages have pairwise distinct urls. -/
theorem wUrl_inj : Function.Injective wUrl := by
  intro x y h
  have h2 := congrArg (fun s => s.data.length) h
  simp only [wUrl, List.length_replicate] at h2
  omega

/-- Dropping whitespace from a list with none leaves it unchanged. -/
theorem dropWhile_no_space (m : List Char) (hm : ∀ c ∈ m, pyIsSpace c = false) :
    m.dropWhile pyIsSpace = m := by
  cases m with
  | nil => rfl
  | cons c t =>
    rw [List.dropWhile_cons, hm c (by simp)]
    simp

/-- `pyStripL` is the identity on whitespace-free character lists. -/
theorem pyStripL_no_space (l : List Char) (h : ∀ c ∈ l, pyIsSpace c = false) :
    pyStripL l = l := by
  unfold pyStripL
  rw [dropWhile_no_space l h]
  rw [dropWhile_no_space l.reverse (by
    intro c hc
    exact h c (List.mem_reverse.mp hc))]
  exact List.reverse_reverse l

/-- The chain urls contain no whitespace. -/
theorem wUrl_no_space (k : Nat) : ∀ c ∈ (wUrl k).data, pyIsSpace c = false := by
  intro c hc
  have he := List.eq_of_mem_replicate hc
  subst he
  rfl

/-- `pyStrip` leaves the chain urls unchanged. -/
theorem wUrl_strip (k : Nat) : pyStrip (wUrl k) = wUrl k := by
  unfold pyStrip
  rw [pyStripL_no_space _ (wUrl_no_space k)]

/-- The chain urls are nonempty. -/
theorem wUrl_ne_empty (k : Nat) : wUrl k ≠ "" := by
  intro h
  have h2 := congrArg String.data h
  have h3 : List.replicate (k + 1) 'a' = ([] : List Char) := h2
  simp at h3

/-- Appending one more `a` moves to the next chain url. -/
theorem wUrl_succ (k : Nat) : wUrl k ++ "a" = wUrl (k + 1) := by
  have hd : (wUrl k ++ "a").data = (wUrl (k + 1)).data := by
    have h0 : (wUrl k ++ "a").data = List.replicate (k + 1) 'a' ++ ['a'] := rfl
    rw [h0]
    exact (List.replicate_succ' (k + 1) 'a').symm
  exact congrArg String.mk hd

/-- Witness for C4 (amended) at `max_pages = 2` over the concrete
infinite chain: exactly 2 pages come back, the starting page first. -/
theorem C4_pagination_ceiling_witness :
    parse_pagination_links wUj wFetch wNext (wUrl 0) 2 =
      .ok ((List.range 2).map (fun k => ⟨wUrl k, wUrl k⟩)) := by
  apply C4_pagination_ceiling wUj wFetch wNext wUrl wUrl wA 2 wUrl_inj
    (fun k => rfl)
    (fun k => by simp only [wNext, wA, wUrl_succ])
    (fun k => by
      rw [show ((wA k).href).getD "" = wUrl (k + 1) from rfl, wUrl_strip]
      exact wUrl_ne_empty (k + 1))
    (fun k => by
      rw [show ((wA k).href).getD "" = wUrl (k + 1) from rfl, wUrl_strip]
      rfl)
    (by norm_num)

/-- Counterexample for C4 as stated (for every `m`): with the same
infinite chain of valid fresh next links and `max_pages = 0`, the walker
still yields the starting page — 1 page, not 0. -/
theorem C4_pagination_ceiling_counterexample :
    parse_pagination_links wUj wFetch wNext "a" 0 = .ok [⟨"a", "a"⟩] ∧
    [(⟨"a", "a"⟩ : GameList)].length ≠ 0 :=
  ⟨by decide, by decide⟩

/-- A urljoin stub returning the href unchanged (cycle site). -/
def cycUj : String → String → String := fun _ h => h

/-- Next-anchor query of a three-page site whose page 3 links back to
page 1. -/
def cycNext : String → Option Anchor := fun h =>
  if h = "h1" then some ⟨"next", some "p2"⟩
  else if h = "h2" then some ⟨"next", some "p3"⟩
  else if h = "h3" then some ⟨"next", some "p1"⟩
  else none

/-- Fetcher of the three-page cycle site. -/
def cycFetch : String → Except Unit String := fun u =>
  if u = "p1" then .ok "h1"
  else if u = "p2" then .ok "h2"
  else if u = "p3" then .ok "h3"
  else .error ()

/-- C5: whenever the next link of the current page resolves to an
already-visited URL, the pagination loop terminates on the spot (first
conjunct, for any site and any state of the walk); in particular, on the
three-page site whose page 3 links back to page 1, the walker yields
exactly 3 pages (second conjunct, with the default `max_pages = 100`). -/
theorem C5_pagination_cycle :
    (∀ {ε : Type} (uj : String → String → String)
        (f : String → Except ε String) (nA : String → Option Anchor)
        (b : String) (mp : Nat) (html : String) (seen : List String)
        (pf fuel : Nat) (a : Anchor),
        nA html = some a →
        uj b (pyStrip ((a.href).getD "")) ∈ seen →
        paginGo uj f nA b mp html seen pf fuel = []) ∧
    parse_pagination_links cycUj cycFetch cycNext "p1" 100 =
      .ok [⟨"h1", "p1"⟩, ⟨"h2", "p2"⟩, ⟨"h3", "p3"⟩] := by
  constructor
  · intro ε uj f nA b mp html seen pf fuel a ha hmem
    cases fuel with
    | zero => rfl
    | succ fu =>
      conv_lhs => rw [paginGo]
      rw [ha]
      dsimp only
      by_cases hh : pyStrip ((a.href).getD "") = ""
      · rw [if_pos hh]
      · rw [if_neg hh, if_pos (Or.inl hmem)]
  · decide

/-- Witness for C5: on the cycle site, after the three real pages the
loop body, seeing page 1's url again, returns no further page; and the
whole walk yields exactly the 3 pages. -/
theorem C5_pagination_cycle_witness :
    paginGo cycUj cycFetch cycNext "p1" 100 "h3" ["p3", "p2", "p1"] 3 97 = [] ∧
    parse_pagination_links cycUj cycFetch cycNext "p1" 100 =
      .ok [⟨"h1", "p1"⟩, ⟨"h2", "p2"⟩, ⟨"h3", "p3"⟩] :=
  ⟨C5_pagination_cycle.1 cycUj cycFetch cycNext "p1" 100 "h3" ["p3", "p2", "p1"]
      3 97 ⟨"next", some "p1"⟩ (by decide) (by decide),
    C5_pagination_cycle.2⟩

/-- Every page the loop yields has a url outside the visited set handed
to it, and the yielded urls are pairwise distinct. -/
theorem paginGo_urls_fresh {ε : Type} (uj : String → String → String)
    (f : String → Except ε String) (nA : String → Option Anchor)
    (b : String) (mp : Nat) :
    ∀ fuel html (seen : List String) pf,
      (∀ gl ∈ paginGo uj f nA b mp html seen pf fuel, gl.url ∉ seen) ∧
      ((paginGo uj f nA b mp html seen pf fuel).map GameList.url).Nodup := by
  intro fuel
  induction fuel with
  | zero =>
    intro html seen pf
    constructor
    · intro gl hgl
      exact absurd hgl (List.not_mem_nil gl)
    · exact List.nodup_nil
  | succ fu ih =>
    intro html seen pf
    cases hna : nA html with
    | none =>
      have he : paginGo uj f nA b mp html seen pf (fu + 1) = [] := by
        conv_lhs => rw [paginGo]
        rw [hna]
      rw [he]
      exact ⟨fun gl hgl => absurd hgl (List.not_mem_nil gl), List.nodup_nil⟩
    | some a =>
      by_cases hh : pyStrip ((a.href).getD "") = ""
      · have he : paginGo uj f nA b mp html seen pf (fu + 1) = [] := by
          conv_lhs => rw [paginGo]
          rw [hna]
          dsimp only
          rw [if_pos hh]
        rw [he]
        exact ⟨fun gl hgl => absurd hgl (List.not_mem_nil gl), List.nodup_nil⟩
      · by_cases hc : uj b (pyStrip ((a.href).getD "")) ∈ seen ∨ pf ≥ mp
        · have he : paginGo uj f nA b mp html seen pf (fu + 1) = [] := by
            conv_lhs => rw [paginGo]
            rw [hna]
            dsimp only
            rw [if_neg hh, if_pos hc]
          rw [he]
          exact ⟨fun gl hgl => absurd hgl (List.not_mem_nil gl), List.nodup_nil⟩
        · cases hf : f (uj b (pyStrip ((a.href).getD ""))) with
          | error e =>
            have he : paginGo uj f nA b mp html seen pf (fu + 1) = [] := by
              conv_lhs => rw [paginGo]
              rw [hna]
              dsimp only
              rw [if_neg hh, if_neg hc, hf]
            rw [he]
            exact ⟨fun gl hgl => absurd hgl (List.not_mem_nil gl), List.nodup_nil⟩
          | ok h2 =>
            have he : paginGo uj f nA b mp html seen pf (fu + 1) =
                ⟨h2, uj b (pyStrip ((a.href).getD ""))⟩ ::
                  paginGo uj f nA b mp h2
                    (uj b (pyStrip ((a.href).getD "")) :: seen) (pf + 1) fu := by
              conv_lhs => rw [paginGo]
              rw [hna]
              dsimp only
              rw [if_neg hh, if_neg hc, hf]
            rw [he]
            obtain ⟨ih1, ih2⟩ :=
              ih h2 (uj b (pyStrip ((a.href).getD "")) :: seen) (pf + 1)
            push_neg at hc
            constructor
            · intro gl hgl
              rcases List.mem_cons.mp hgl with hgl | hgl
              · subst hgl
                exact hc.1
              · intro hmem2
                exact ih1 gl hgl (List.mem_cons_of_mem _ hmem2)
            · rw [List.map_cons, List.nodup_cons]
              constructor
              · intro hmem2
                obtain ⟨gl, hgl, he2⟩ := List.mem_map.mp hmem2
                exact ih1 gl hgl (by rw [he2]; exact List.mem_cons_self _ _)
              · exact ih2

/-- C9: within one call, the yielded pages carry pairwise distinct urls:
the starting url seeds the visited set and every later candidate is
checked against it before being fetched, yielded and recorded. -/
theorem C9_walk_urls_nodup {ε : Type} (uj : String → String → String)
    (f : String → Except ε String) (nA : String → Option Anchor)
    (b : String) (mp : Nat) (pages : List GameList)
    (h : parse_pagination_links uj f nA b mp = .ok pages) :
    (pages.map GameList.url).Nodup := by
  unfold parse_pagination_links at h
  cases hf : f b with
  | error e =>
    rw [hf] at h
    exact absurd h (by simp)
  | ok html =>
    rw [hf] at h
    dsimp only at h
    have hp : pages = ⟨html, b⟩ :: paginGo uj f nA b mp html [b] 1 mp :=
      (Except.ok.inj h).symm
    rw [hp, List.map_cons, List.nodup_cons]
    obtain ⟨h1, h2⟩ := paginGo_urls_fresh uj f nA b mp mp html [b] 1
    constructor
    · intro hmem
      obtain ⟨gl, hgl, he2⟩ := List.mem_map.mp hmem
      exact h1 gl hgl (by rw [he2]; exact List.mem_cons_self _ _)
    · exact h2

/-- Witness for C9 on the cycle site: the three yielded urls are
pairwise distinct. -/
theorem C9_walk_urls_nodup_witness :
    (([⟨"h1", "p1"⟩, ⟨"h2", "p2"⟩, ⟨"h3", "p3"⟩] : List GameList).map
      GameList.url).Nodup :=
  C9_walk_urls_nodup cycUj cycFetch cycNext "p1" 100 _ (by decide)

/-! ## C3, C6: listing-page parsing and enrichment failure -/

/-- A detail page with no `#game` frame carrying a truthy `src` makes
`parse_game` raise the detail-not-found `ValueError`, whatever the
network would answer. -/
theorem parse_game_bad_frame {ε : Type} (uj : String → String → String)
    (fetchHtml : String → Except ε String) (doc : DetailDoc)
    (base_url : String) (g : PlayerGame) (reg : Reg) (st : Store)
    (h : noValidFrame doc = true) :
    parse_game uj fetchHtml doc base_url g reg st = .error .noGameFrame := by
  obtain ⟨gf⟩ := doc
  cases gf with
  | none => rfl
  | some fr =>
    obtain ⟨src⟩ := fr
    cases src with
    | none => rfl
    | some s =>
      have hs : s = "" := by simpa [noValidFrame] using h
      subst hs
      rfl

/-- C3: on a detail page without a `#game` frame with nonempty `src`,
`parse_game` raises the detail-not-found error independently of the
fetcher (first conjunct: `f2` is arbitrary, so no sub-document fetch can
influence the outcome), and `parse_game_links` catches the error and
still yields the base stub with `move_list`, `begin_fen` and
`start_color` unset and the registries and store untouched. -/
theorem C3_detail_not_found {ε : Type} (uj : String → String → String)
    (fetchHtml f2 : String → Except ε String)
    (soupDivs : String → List GameDiv) (soupDetail : String → DetailDoc)
    (base html0 dh : String) (d : GameDiv) (ar ab ares aev : Anchor)
    (g : PlayerGame) (reg : Reg) (st : Store)
    (hbad : noValidFrame (soupDetail dh) = true)
    (hf : fetchHtml base = .ok html0)
    (hdivs : soupDivs html0 = [d])
    (hred : d.red = some ar) (hblack : d.black = some ab)
    (hres : d.result = some ares) (hev : d.event = some aev)
    (hhref : pyStrip ((ares.href).getD "") ≠ "")
    (hdh : fetchHtml (uj base (pyStrip ((ares.href).getD ""))) = .ok dh) :
    parse_game uj f2 (soupDetail dh) base g reg st = .error .noGameFrame ∧
    parse_game_links uj fetchHtml soupDivs soupDetail base reg st =
      .ok ([⟨ar.text, ab.text, aev.text, uj base (pyStrip ((ares.href).getD "")),
        ares.text, none, none, none, none, none, none, none⟩], reg, st) := by
  constructor
  · exact parse_game_bad_frame uj f2 _ base g reg st hbad
  · unfold parse_game_links
    rw [hf]
    dsimp only
    rw [hdivs, List.foldl_cons, List.foldl_nil]
    unfold processDiv
    rw [hred, hblack, hres, hev]
    dsimp only
    rw [if_neg hhref]
    try dsimp only
    rw [hdh]
    try dsimp only
    rw [parse_game_bad_frame uj fetchHtml _ _ _ _ _ hbad]
    rfl

/-- A urljoin stub returning the href unchanged (C3 instance). -/
def c3Uj : String → String → String := fun _ h => h

/-- A well-formed listing container whose game link is `gu`. -/
def c3Div : GameDiv :=
  ⟨some ⟨"R", some "r1"⟩, some ⟨"B", some "r2"⟩, some ⟨"1-0", some "gu"⟩,
    some ⟨"E", none⟩⟩

/-- Fetcher: the listing page `L0` has markup `H`; everything else
(the game detail page) returns markup `D`. -/
def c3Fetch : String → Except Unit String :=
  fun u => if u = "L0" then .ok "H" else .ok "D"

/-- The listing markup `H` holds exactly one game container. -/
def c3Divs : String → List GameDiv := fun h => if h = "H" then [c3Div] else []

/-- Every detail markup parses to a page with no `#game` frame. -/
def c3Detail : String → DetailDoc := fun _ => ⟨none⟩

/-- Witness for C3 on the concrete one-game listing page whose detail
page has no `#game` frame. -/
theorem C3_detail_not_found_witness :
    parse_game c3Uj (fun _ => (Except.error () : Except Unit String))
        (c3Detail "D") "gu"
        ⟨"R", "B", "E", "gu", "1-0", none, none, none, none, none, none, none⟩
        ⟨[], []⟩ ⟨[], [], [], 0⟩ = .error .noGameFrame ∧
    parse_game_links c3Uj c3Fetch c3Divs c3Detail "L0" ⟨[], []⟩ ⟨[], [], [], 0⟩ =
      .ok ([⟨"R", "B", "E", "gu", "1-0", none, none, none, none, none, none,
        none⟩], ⟨[], []⟩, ⟨[], [], [], 0⟩) := by
  have h := C3_detail_not_found c3Uj c3Fetch
    (fun _ => (Except.error () : Except Unit String)) c3Divs c3Detail
    "L0" "H" "D" c3Div ⟨"R", some "r1"⟩ ⟨"B", some "r2"⟩ ⟨"1-0", some "gu"⟩
    ⟨"E", none⟩
    ⟨"R", "B", "E", "gu", "1-0", none, none, none, none, none, none, none⟩
    ⟨[], []⟩ ⟨[], [], [], 0⟩
    (by decide) (by decide) (by decide) rfl rfl rfl rfl (by decide) (by decide)
  exact ⟨h.1, h.2⟩

/-- A urljoin stub returning the href unchanged (C6 instance). -/
def c6Uj : String → String → String := fun _ h => h

/-- Fetcher: only the listing page `LP` is reachable, so every
enrichment
fetch fails and the stubs are yielded bare. -/
def c6Fetch : String → Except Unit String :=
  fun u => if u = "LP" then .ok "LH" else .error ()

/-- A well-formed listing container. -/
def c6Good : GameDiv :=
  ⟨some ⟨"R", some "r1"⟩, some ⟨"B", some "r2"⟩, some ⟨"1-0", some "gu"⟩,
    some ⟨"E", none⟩⟩

/-- A listing container missing its event link. -/
def c6Bad : GameDiv :=
  ⟨some ⟨"R2", some "r3"⟩, some ⟨"B2", some "r4"⟩, some ⟨"0-1", some "gu2"⟩,
    none⟩

/-- The listing markup `LH` holds one well-formed container and one
missing its event link. -/
def c6Divs : String → List GameDiv :=
  fun h => if h = "LH" then [c6Good, c6Bad] else []

/-- Every detail markup parses to a page with no `#game` frame. -/
def c6Detail : String → DetailDoc := fun _ => ⟨none⟩

/-- C6: a container missing any of the four required sub-elements is
skipped — the loop body leaves the accumulated games, registries and
store untouched — while the remaining containers are still processed; in
particular the concrete listing page with one well-formed container and
one container missing its event link yields exactly one stub. -/
theorem C6_malformed_entry_skip {ε : Type} (uj : String → String → String)
    (fetchHtml : String → Except ε String) (soupDetail : String → DetailDoc)
    (base_url : String) :
    (∀ (acc : List PlayerGame × Reg × Store) (d : GameDiv),
        d.red = none ∨ d.black = none ∨ d.result = none ∨ d.event = none →
        processDiv uj fetchHtml soupDetail base_url acc d = acc) ∧
    parse_game_links c6Uj c6Fetch c6Divs c6Detail "LP" ⟨[], []⟩ ⟨[], [], [], 0⟩ =
      .ok ([⟨"R", "B", "E", "gu", "1-0", none, none, none, none, none, none,
        none⟩], ⟨[], []⟩, ⟨[], [], [], 0⟩) := by
  constructor
  · intro acc d h
    obtain ⟨r, b2, res, ev⟩ := d
    cases r <;> cases b2 <;> cases res <;> cases ev <;>
      first
        | rfl
        | simp at h
  · decide

/-- Witness for C6: skipping the concrete malformed container is a
no-op, and the two-container page yields exactly one stub. -/
theorem C6_malformed_entry_skip_witness :
    processDiv c6Uj c6Fetch c6Detail "LP" ([], ⟨[], []⟩, ⟨[], [], [], 0⟩)
      c6Bad = ([], ⟨[], []⟩, ⟨[], [], [], 0⟩) ∧
    parse_game_links c6Uj c6Fetch c6Divs c6Detail "LP" ⟨[], []⟩ ⟨[], [], [], 0⟩ =
      .ok ([⟨"R", "B", "E", "gu", "1-0", none, none, none, none, none, none,
        none⟩], ⟨[], []⟩, ⟨[], [], [], 0⟩) :=
  ⟨(C6_malformed_entry_skip c6Uj c6Fetch c6Detail "LP").1 _ c6Bad (by decide),
    (C6_malformed_entry_skip c6Uj c6Fetch c6Detail "LP").2⟩

/-! ## C10: enrichment does not touch the stub fields -/

/-- `assignGameId` only writes `id`. -/
theorem assignGameId_fields (g1 : PlayerGame) (ups : Option Nat)
    (gs : List GameDoc) :
    (assignGameId g1 ups gs).red_player = g1.red_player ∧
    (assignGameId g1 ups gs).black_player = g1.black_player ∧
    (assignGameId g1 ups gs).event = g1.event ∧
    (assignGameId g1 ups gs).url = g1.url ∧
    (assignGameId g1 ups gs).result = g1.result := by
  unfold assignGameId
  cases ups with
  | some i => exact ⟨rfl, rfl, rfl, rfl, rfl⟩
  | none =>
    cases gs.find? (fun d => d.url == g1.url) with
    | none => exact ⟨rfl, rfl, rfl, rfl, rfl⟩
    | some ex => exact ⟨rfl, rfl, rfl, rfl, rfl⟩

/-- `save_game` returns the game it was given with only identifier
fields rewritten: the five stub fields survive. -/
theorem save_game_fields (reg : Reg) (st : Store) (g : PlayerGame) :
    ((save_game reg st g).2.2).red_player = g.red_player ∧
    ((save_game reg st g).2.2).black_player = g.black_player ∧
    ((save_game reg st g).2.2).event = g.event ∧
    ((save_game reg st g).2.2).url = g.url ∧
    ((save_game reg st g).2.2).result = g.result := by
  refine ⟨?_, ?_, ?_, ?_, ?_⟩ <;> (unfold save_game; dsimp only)
  · rw [(assignGameId_fields _ _ _).1]
  · rw [(assignGameId_fields _ _ _).2.1]
  · rw [(assignGameId_fields _ _ _).2.2.1]
  · rw [(assignGameId_fields _ _ _).2.2.2.1]
  · rw [(assignGameId_fields _ _ _).2.2.2.2]

/-- The pattern extraction only writes `move_list`, `begin_fen` and
`start_color`: the five stub fields survive. -/
theorem enrichGame_fields (g : PlayerGame) (fh : String) :
    (enrichGame g fh).red_player = g.red_player ∧
    (enrichGame g fh).black_player = g.black_player ∧
    (enrichGame g fh).event = g.event ∧
    (enrichGame g fh).url = g.url ∧
    (enrichGame g fh).result = g.result := by
  refine ⟨?_, ?_, ?_, ?_, ?_⟩ <;>
    (unfold enrichGame; dsimp only; split <;> (try dsimp only) <;> split <;>
      (try dsimp only) <;> split <;> rfl)

/-- C10: `parse_game` never modifies the `red_player`, `black_player`,
`event`, `url` or `result` fields of the game it was given — successful
enrichment returns the same game with only `move_list`, `begin_fen`,
`start_color` and the identifier fields possibly rewritten. -/
theorem C10_frame_preservation {ε : Type} (uj : String → String → String)
    (fetchHtml : String → Except ε String) (doc : DetailDoc)
    (base_url : String) (g : PlayerGame) (reg : Reg) (st : Store)
    (g2 : PlayerGame) (reg2 : Reg) (st2 : Store)
    (h : parse_game uj fetchHtml doc base_url g reg st = .ok (g2, reg2, st2)) :
    g2.red_player = g.red_player ∧ g2.black_player = g.black_player ∧
    g2.event = g.event ∧ g2.url = g.url ∧ g2.result = g.result := by
  obtain ⟨gf⟩ := doc
  cases gf with
  | none => exact absurd h (by simp [parse_game])
  | some fr =>
    obtain ⟨src⟩ := fr
    cases src with
    | none => exact absurd h (by simp [parse_game])
    | some s =>
      unfold parse_game at h
      dsimp only at h
      by_cases hs : s = ""
      · rw [if_pos hs] at h
        exact absurd h (by simp)
      · rw [if_neg hs] at h
        cases hf : fetchHtml (uj base_url (pyStrip s)) with
        | error e =>
          rw [hf] at h
          exact absurd h (by simp)
        | ok fh =>
          rw [hf] at h
          dsimp only at h
          have h2 := Except.ok.inj h
          have hg : g2 = (save_game reg st (enrichGame g fh)).2.2 :=
            congrArg Prod.fst h2.symm
          rw [hg]
          obtain ⟨s1, s2, s3, s4, s5⟩ := save_game_fields reg st (enrichGame g fh)
          obtain ⟨e1, e2, e3, e4, e5⟩ := enrichGame_fields g fh
          exact ⟨s1.trans e1, s2.trans e2, s3.trans e3, s4.trans e4, s5.trans e5⟩

/-- Witness for C10 on the concrete successful enrichment of C1's
instance: the returned game keeps the stub's five fields. -/
theorem C10_frame_preservation_witness :
    (⟨"R", "B", "E", "u", "1-0", some 3, some 0, some 1, some 2,
        some "NaNbN", none, none⟩ : PlayerGame).red_player =
      c1Stub.red_player ∧
    (⟨"R", "B", "E", "u", "1-0", some 3, some 0, some 1, some 2,
        some "NaNbN", none, none⟩ : PlayerGame).black_player =
      c1Stub.black_player ∧
    (⟨"R", "B", "E", "u", "1-0", some 3, some 0, some 1, some 2,
        some "NaNbN", none, none⟩ : PlayerGame).event = c1Stub.event ∧
    (⟨"R", "B", "E", "u", "1-0", some 3, some 0, some 1, some 2,
        some "NaNbN", none, none⟩ : PlayerGame).url = c1Stub.url ∧
    (⟨"R", "B", "E", "u", "1-0", some 3, some 0, some 1, some 2,
        some "NaNbN", none, none⟩ : PlayerGame).result = c1Stub.result :=
  C10_frame_preservation c1Uj
    (fun _ => (Except.ok c1Frame : Except Unit String)) c1Doc "b" c1Stub
    c1Reg c1Store
    ⟨"R", "B", "E", "u", "1-0", some 3, some 0, some 1, some 2,
      some "NaNbN", none, none⟩
    ⟨[], [("E", ⟨"E", some 2⟩)]⟩
    ⟨[⟨0, "R", ""⟩, ⟨1, "B", ""⟩], [⟨2, "E"⟩],
      [⟨3, 0, 1, 2, "u", "1-0", some "NaNbN", none, none⟩], 4⟩
    (by decide)

/-! ## C7: idempotent persistence -/

/-- Player upsert does not touch the events collection. -/
theorem upsertPlayerDoc_events (st : Store) (n u : String) :
    (upsertPlayerDoc st n u).2.events = st.events := by
  unfold upsertPlayerDoc
  cases st.players.find? (fun d => d.name == n) <;> rfl

/-- Player upsert does not touch the games collection. -/
theorem upsertPlayerDoc_games (st : Store) (n u : String) :
    (upsertPlayerDoc st n u).2.games = st.games := by
  unfold upsertPlayerDoc
  cases st.players.find? (fun d => d.name == n) <;> rfl

/-- Event upsert does not touch the players collection. -/
theorem upsertEventDoc_players (st : Store) (n : String) :
    (upsertEventDoc st n).2.players = st.players := by
  unfold upsertEventDoc
  cases st.events.find? (fun d => d.name == n) <;> rfl

/-- Event upsert does not touch the games collection. -/
theorem upsertEventDoc_games (st : Store) (n : String) :
    (upsertEventDoc st n).2.games = st.games := by
  unfold upsertEventDoc
  cases st.events.find? (fun d => d.name == n) <;> rfl

/-- Game upsert does not touch the players collection. -/
theorem upsertGameDoc_players (st : Store) (u : GameUpdate) :
    (upsertGameDoc st u).2.players = st.players := by
  unfold upsertGameDoc
  cases updateFirstGame u st.games <;> rfl

/-- Game upsert does not touch the events collection. -/
theorem upsertGameDoc_events (st : Store) (u : GameUpdate) :
    (upsertGameDoc st u).2.events = st.events := by
  unfold upsertGameDoc
  cases updateFirstGame u st.games <;> rfl

/-- A player upsert whose name is already stored is a pure read: the
found document is returned and the store is unchanged — there is no
second insert and the stored identity fields keep their first-insert
values. -/
theorem upsertPlayerDoc_found (st : Store) (n u : String) (d : PlayerDoc)
    (h : st.players.find? (fun x => x.name == n) = some d) :
    upsertPlayerDoc st n u = (d, st) := by
  unfold upsertPlayerDoc
  rw [h]

/-- An event upsert whose name is already stored is a pure read. -/
theorem upsertEventDoc_found (st : Store) (n : String) (d : EventDoc)
    (h : st.events.find? (fun x => x.name == n) = some d) :
    upsertEventDoc st n = (d, st) := by
  unfold upsertEventDoc
  rw [h]

/-- After a player upsert the name is always findable. -/
theorem upsertPlayerDoc_find_self (st : Store) (n u : String) :
    ∃ d, (upsertPlayerDoc st n u).2.players.find?
      (fun x => x.name == n) = some d := by
  unfold upsertPlayerDoc
  cases h : st.players.find? (fun x => x.name == n) with
  | some d => exact ⟨d, h⟩
  | none =>
    refine ⟨⟨st.nextId, n, u⟩, ?_⟩
    dsimp only
    rw [List.find?_append, h]
    simp

/-- After an event upsert the name is always findable. -/
theorem upsertEventDoc_find_self (st : Store) (n : String) :
    ∃ d, (upsertEventDoc st n).2.events.find?
      (fun x => x.name == n) = some d := by
  unfold upsertEventDoc
  cases h : st.events.find? (fun x => x.name == n) with
  | some d => exact ⟨d, h⟩
  | none =>
    refine ⟨⟨st.nextId, n⟩, ?_⟩
    dsimp only
    rw [List.find?_append, h]
    simp

/-- A successful find survives any further player upsert (the collection
only ever grows at the tail). -/
theorem upsertPlayerDoc_find_mono (st : Store) (n u : String)
    (p : PlayerDoc → Bool) (d : PlayerDoc) (h : st.players.find? p = some d) :
    (upsertPlayerDoc st n u).2.players.find? p = some d := by
  unfold upsertPlayerDoc
  cases hf : st.players.find? (fun x => x.name == n) with
  | some d2 => exact h
  | none =>
    dsimp only
    rw [List.find?_append, h]
    rfl

/-- Player upsert keeps stored player names duplicate-free. -/
theorem upsertPlayerDoc_nodup (st : Store) (n u : String)
    (h : (st.players.map PlayerDoc.name).Nodup) :
    ((upsertPlayerDoc st n u).2.players.map PlayerDoc.name).Nodup := by
  unfold upsertPlayerDoc
  cases hf : st.players.find? (fun x => x.name == n) with
  | some d => exact h
  | none =>
    dsimp only
    rw [List.map_append, List.nodup_append]
    refine ⟨h, by simp, ?_⟩
    intro x hx hx2
    simp only [List.map_cons, List.map_nil, List.mem_singleton] at hx2
    subst hx2
    obtain ⟨d2, hd2, hname⟩ := List.mem_map.mp hx
    have h3 := List.find?_eq_none.mp hf d2 hd2
    apply h3
    simp [hname]

/-- Event upsert keeps stored event names duplicate-free. -/
theorem upsertEventDoc_nodup (st : Store) (n : String)
    (h : (st.events.map EventDoc.name).Nodup) :
    ((upsertEventDoc st n).2.events.map EventDoc.name).Nodup := by
  unfold upsertEventDoc
  cases hf : st.events.find? (fun x => x.name == n) with
  | some d => exact h
  | none =>
    dsimp only
    rw [List.map_append, List.nodup_append]
    refine ⟨h, by simp, ?_⟩
    intro x hx hx2
    simp only [List.map_cons, List.map_nil, List.mem_singleton] at hx2
    subst hx2
    obtain ⟨d2, hd2, hname⟩ := List.mem_map.mp hx
    have h3 := List.find?_eq_none.mp hf d2 hd2
    apply h3
    simp [hname]

/-- When no stored game matches the url, the match part of the game
upsert reports no match. -/
theorem updateFirstGame_none (u : GameUpdate) (gs : List GameDoc)
    (h : ∀ d ∈ gs, d.url ≠ u.url) : updateFirstGame u gs = none := by
  induction gs with
  | nil => rfl
  | cons d ds ih =>
    unfold updateFirstGame
    have hc : (d.url == u.url) = false :=
      beq_eq_false_iff_ne.mpr (h d (List.mem_cons_self d ds))
    rw [hc]
    simp only [Bool.false_eq_true, if_false]
    rw [ih (fun x hx => h x (List.mem_cons_of_mem d hx))]
    rfl

/-- When the single matching game document sits at the tail, the match
part of the game upsert rewrites exactly that document. -/
theorem updateFirstGame_append_hit (u : GameUpdate) (gs : List GameDoc)
    (dl : GameDoc) (h : ∀ d ∈ gs, d.url ≠ u.url) (hdl : dl.url = u.url) :
    updateFirstGame u (gs ++ [dl]) = some (gs ++ [setGameFields dl u]) := by
  induction gs with
  | nil =>
    simp only [List.nil_append]
    unfold updateFirstGame
    rw [show (dl.url == u.url) = true from beq_iff_eq.mpr hdl]
    simp
  | cons d ds ih =>
    simp only [List.cons_append]
    unfold updateFirstGame
    have hc : (d.url == u.url) = false :=
      beq_eq_false_iff_ne.mpr (h d (List.mem_cons_self d ds))
    rw [hc]
    simp only [Bool.false_eq_true, if_false]
    rw [ih (fun x hx => h x (List.mem_cons_of_mem d hx))]
    rfl

/-- Game upsert with no matching url inserts a fresh document at the
tail. -/
theorem upsertGameDoc_games_absent (st : Store) (u : GameUpdate)
    (h : ∀ d ∈ st.games, d.url ≠ u.url) :
    (upsertGameDoc st u).2.games = st.games ++
      [⟨st.nextId, u.red_player_id, u.black_player_id, u.event_id, u.url,
        u.result, u.move_list, u.begin_fen, u.start_color⟩] := by
  unfold upsertGameDoc
  rw [updateFirstGame_none u st.games h]

/-- Game upsert with a match rewrites in place. -/
theorem upsertGameDoc_games_hit (st : Store) (u : GameUpdate)
    (gs2 : List GameDoc) (h : updateFirstGame u st.games = some gs2) :
    (upsertGameDoc st u).2.games = gs2 := by
  unfold upsertGameDoc
  rw [h]

/-- The store side of `save_game` is exactly: player upsert for red,
player upsert for black, event upsert, then game upsert with a `$set`
document carrying the game's url and mutable fields. -/
theorem save_game_store_shape (reg : Reg) (st : Store) (g : PlayerGame) :
    ∃ u : GameUpdate, u.url = g.url ∧ u.result = g.result ∧
      u.move_list = g.move_list ∧ u.begin_fen = g.begin_fen ∧
      u.start_color = g.start_color ∧
      (save_game reg st g).2.1 =
        (upsertGameDoc (upsertEventDoc (upsertPlayerDoc (upsertPlayerDoc st
          g.red_player (regPlayerUrl reg g.red_player)).2 g.black_player
          (regPlayerUrl reg g.black_player)).2 g.event).2 u).2 := by
  unfold save_game
  dsimp only
  exact ⟨⟨(upsertPlayerDoc st g.red_player (regPlayerUrl reg g.red_player)).1.id,
    (upsertPlayerDoc (upsertPlayerDoc st g.red_player
      (regPlayerUrl reg g.red_player)).2 g.black_player
      (regPlayerUrl reg g.black_player)).1.id,
    (upsertEventDoc (upsertPlayerDoc (upsertPlayerDoc st g.red_player
      (regPlayerUrl reg g.red_player)).2 g.black_player
      (regPlayerUrl reg g.black_player)).2 g.event).1.id,
    g.url, g.result, g.move_list, g.begin_fen, g.start_color⟩,
    rfl, rfl, rfl, rfl, rfl, rfl⟩

/-- First `save_game` against a store not yet holding the game: the
game document is appended once with the game's fields, the player and
event names become findable, and name uniqueness is preserved. -/
theorem save_game_first (reg : Reg) (st : Store) (g : PlayerGame)
    (habsent : ∀ d ∈ st.games, d.url ≠ g.url)
    (hpnd : (st.players.map PlayerDoc.name).Nodup)
    (hend : (st.events.map EventDoc.name).Nodup) :
    (∃ D : GameDoc, D.url = g.url ∧ D.result = g.result ∧
      D.move_list = g.move_list ∧ D.begin_fen = g.begin_fen ∧
      D.start_color = g.start_color ∧
      (save_game reg st g).2.1.games = st.games ++ [D]) ∧
    (∃ d, (save_game reg st g).2.1.players.find?
      (fun x => x.name == g.red_player) = some d) ∧
    (∃ d, (save_game reg st g).2.1.players.find?
      (fun x => x.name == g.black_player) = some d) ∧
    (∃ d, (save_game reg st g).2.1.events.find?
      (fun x => x.name == g.event) = some d) ∧
    ((save_game reg st g).2.1.players.map PlayerDoc.name).Nodup ∧
    ((save_game reg st g).2.1.events.map EventDoc.name).Nodup := by
  obtain ⟨u, hu1, hu2, hu3, hu4, hu5, hsh⟩ := save_game_store_shape reg st g
  refine ⟨⟨⟨(upsertEventDoc (upsertPlayerDoc (upsertPlayerDoc st g.red_player
      (regPlayerUrl reg g.red_player)).2 g.black_player
      (regPlayerUrl reg g.black_player)).2 g.event).2.nextId,
      u.red_player_id, u.black_player_id, u.event_id, u.url, u.result,
      u.move_list, u.begin_fen, u.start_color⟩,
      hu1, hu2, hu3, hu4, hu5, ?_⟩, ?_, ?_, ?_, ?_, ?_⟩
  · rw [hsh, upsertGameDoc_games_absent _ u (by
      intro d hd
      rw [upsertEventDoc_games, upsertPlayerDoc_games,
        upsertPlayerDoc_games] at hd
      rw [hu1]
      exact habsent d hd)]
    rw [upsertEventDoc_games, upsertPlayerDoc_games, upsertPlayerDoc_games]
  · rw [hsh, upsertGameDoc_players, upsertEventDoc_players]
    obtain ⟨d0, hd0⟩ :=
      upsertPlayerDoc_find_self st g.red_player (regPlayerUrl reg g.red_player)
    exact ⟨d0, upsertPlayerDoc_find_mono _ _ _ _ d0 hd0⟩
  · rw [hsh, upsertGameDoc_players, upsertEventDoc_players]
    exact upsertPlayerDoc_find_self _ g.black_player _
  · rw [hsh, upsertGameDoc_events]
    exact upsertEventDoc_find_self _ g.event
  · rw [hsh, upsertGameDoc_players, upsertEventDoc_players]
    exact upsertPlayerDoc_nodup _ _ _ (upsertPlayerDoc_nodup _ _ _ hpnd)
  · rw [hsh, upsertGameDoc_events]
    apply upsertEventDoc_nodup
    rw [upsertPlayerDoc_events, upsertPlayerDoc_events]
    exact hend

/-- A later `save_game` of a game whose players, event and url are all
already stored: each player and event upsert is a pure read (identity
fields set only on the first insert, no duplicates), and the game upsert
rewrites the single stored document in place with the new call's mutable
fields. -/
theorem save_game_second (reg : Reg) (st : Store) (g : PlayerGame)
    (gs0 : List GameDoc) (D : GameDoc)
    (hgames : st.games = gs0 ++ [D])
    (habsent : ∀ d ∈ gs0, d.url ≠ g.url)
    (hD : D.url = g.url)
    (hfr : ∃ d, st.players.find? (fun x => x.name == g.red_player) = some d)
    (hfb : ∃ d, st.players.find? (fun x => x.name == g.black_player) = some d)
    (hfe : ∃ d, st.events.find? (fun x => x.name == g.event) = some d) :
    (save_game reg st g).2.1.players = st.players ∧
    (save_game reg st g).2.1.events = st.events ∧
    ∃ u : GameUpdate, u.url = g.url ∧ u.result = g.result ∧
      u.move_list = g.move_list ∧ u.begin_fen = g.begin_fen ∧
      u.start_color = g.start_color ∧
      (save_game reg st g).2.1.games = gs0 ++ [setGameFields D u] := by
  obtain ⟨dr, hdr⟩ := hfr
  obtain ⟨db, hdb⟩ := hfb
  obtain ⟨de, hde⟩ := hfe
  obtain ⟨u, h1, h2, h3, h4, h5, hsh⟩ := save_game_store_shape reg st g
  rw [upsertPlayerDoc_found st g.red_player (regPlayerUrl reg g.red_player)
    dr hdr] at hsh
  dsimp only at hsh
  rw [upsertPlayerDoc_found st g.black_player (regPlayerUrl reg g.black_player)
    db hdb] at hsh
  dsimp only at hsh
  rw [upsertEventDoc_found st g.event de hde] at hsh
  dsimp only at hsh
  refine ⟨?_, ?_, u, h1, h2, h3, h4, h5, ?_⟩
  · rw [hsh, upsertGameDoc_players]
  · rw [hsh, upsertGameDoc_events]
  · rw [hsh]
    apply upsertGameDoc_games_hit
    rw [hgames]
    exact updateFirstGame_append_hit u gs0 D
      (fun d hd => by rw [h1]; exact habsent d hd)
      (by rw [hD, h1])

/-- C7: persistence is idempotent per natural key. Saving the same game
url twice — same players and event, different `result`/`move_list` —
leaves exactly one stored game document for that url, carrying the
second call's `result`, `move_list`, `begin_fen` and `start_color`;
the player and event collections are untouched by the second call and
stay free of duplicate names. -/
theorem C7_upsert_idempotent (reg : Reg) (st : Store) (g1 g2 : PlayerGame)
    (hurl : g2.url = g1.url) (hred : g2.red_player = g1.red_player)
    (hblack : g2.black_player = g1.black_player)
    (hevent : g2.event = g1.event)
    (habsent : ∀ d ∈ st.games, d.url ≠ g1.url)
    (hpnd : (st.players.map PlayerDoc.name).Nodup)
    (hend : (st.events.map EventDoc.name).Nodup) :
    (((save_game (save_game reg st g1).1 (save_game reg st g1).2.1
        g2).2.1.games.filter (fun d => d.url == g1.url)).length = 1 ∧
      ∀ d ∈ (save_game (save_game reg st g1).1 (save_game reg st g1).2.1
        g2).2.1.games, d.url = g1.url →
          d.result = g2.result ∧ d.move_list = g2.move_list ∧
          d.begin_fen = g2.begin_fen ∧ d.start_color = g2.start_color) ∧
    (save_game (save_game reg st g1).1 (save_game reg st g1).2.1
        g2).2.1.players = (save_game reg st g1).2.1.players ∧
    (save_game (save_game reg st g1).1 (save_game reg st g1).2.1
        g2).2.1.events = (save_game reg st g1).2.1.events ∧
    ((save_game (save_game reg st g1).1 (save_game reg st g1).2.1
        g2).2.1.players.map PlayerDoc.name).Nodup ∧
    ((save_game (save_game reg st g1).1 (save_game reg st g1).2.1
        g2).2.1.events.map EventDoc.name).Nodup := by
  obtain ⟨⟨D, hD1, hD2, hD3, hD4, hD5, hDg⟩, hfr, hfb, hfe, hnd1, hnd2⟩ :=
    save_game_first reg st g1 habsent hpnd hend
  have hfr2 : ∃ d, (save_game reg st g1).2.1.players.find?
      (fun x => x.name == g2.red_player) = some d := by
    rw [hred]; exact hfr
  have hfb2 : ∃ d, (save_game reg st g1).2.1.players.find?
      (fun x => x.name == g2.black_player) = some d := by
    rw [hblack]; exact hfb
  have hfe2 : ∃ d, (save_game reg st g1).2.1.events.find?
      (fun x => x.name == g2.event) = some d := by
    rw [hevent]; exact hfe
  obtain ⟨hp, he, u2, hu2url, hu2res, hu2ml, hu2bf, hu2sc, hg⟩ :=
    save_game_second (save_game reg st g1).1 (save_game reg st g1).2.1 g2
      st.games D hDg
      (fun d hd => by rw [hurl]; exact habsent d hd)
      (by rw [hD1, hurl])
      hfr2 hfb2 hfe2
  have hpos : (((setGameFields D u2).url == g1.url)) = true := by
    rw [show (setGameFields D u2).url = u2.url from rfl, hu2url, hurl]
    exact beq_self_eq_true g1.url
  refine ⟨⟨?_, ?_⟩, hp, he, ?_, ?_⟩
  · rw [hg, List.filter_append]
    rw [List.filter_eq_nil_iff.mpr (fun d hd => by
      simp only [beq_iff_eq]
      exact habsent d hd)]
    simp [hpos]
  · intro d hd hdu
    rw [hg] at hd
    rcases List.mem_append.mp hd with hd | hd
    · exact absurd hdu (habsent d hd)
    · rw [List.mem_singleton] at hd
      subst hd
      exact ⟨hu2res, hu2ml, hu2bf, hu2sc⟩
  · rw [hp]; exact hnd1
  · rw [he]; exact hnd2

/-- First game of the C7 witness. -/
def c7G1 : PlayerGame :=
  ⟨"R", "B", "E", "u", "1-0", none, none, none, none, some "m1", none, none⟩

/-- Second save of the same url with different result and moves. -/
def c7G2 : PlayerGame :=
  ⟨"R", "B", "E", "u", "0-1", none, none, none, none, some "m2", none, none⟩

/-- Witness for C7: saving `c7G1` then `c7G2` (same url, players and
event; different result and move list) into an empty store leaves one
game document for the url, carrying the latest values, with no
duplicate player or event records. -/
theorem C7_upsert_idempotent_witness :
    ((save_game (save_game ⟨[], []⟩ ⟨[], [], [], 0⟩ c7G1).1
        (save_game ⟨[], []⟩ ⟨[], [], [], 0⟩ c7G1).2.1 c7G2).2.1.games.filter
      (fun d => d.url == c7G1.url)).length = 1 ∧
    ((⟨3, 0, 1, 2, "u", "0-1", some "m2", none, none⟩ : GameDoc).result =
        c7G2.result ∧
      (⟨3, 0, 1, 2, "u", "0-1", some "m2", none, none⟩ : GameDoc).move_list =
        c7G2.move_list ∧
      (⟨3, 0, 1, 2, "u", "0-1", some "m2", none, none⟩ : GameDoc).begin_fen =
        c7G2.begin_fen ∧
      (⟨3, 0, 1, 2, "u", "0-1", some "m2", none, none⟩ : GameDoc).start_color =
        c7G2.start_color) ∧
    (save_game (save_game ⟨[], []⟩ ⟨[], [], [], 0⟩ c7G1).1
        (save_game ⟨[], []⟩ ⟨[], [], [], 0⟩ c7G1).2.1 c7G2).2.1.players =
      (save_game ⟨[], []⟩ ⟨[], [], [], 0⟩ c7G1).2.1.players ∧
    (save_game (save_game ⟨[], []⟩ ⟨[], [], [], 0⟩ c7G1).1
        (save_game ⟨[], []⟩ ⟨[], [], [], 0⟩ c7G1).2.1 c7G2).2.1.events =
      (save_game ⟨[], []⟩ ⟨[], [], [], 0⟩ c7G1).2.1.events ∧
    ((save_game (save_game ⟨[], []⟩ ⟨[], [], [], 0⟩ c7G1).1
        (save_game ⟨[], []⟩ ⟨[], [], [], 0⟩ c7G1).2.1 c7G2).2.1.players.map
      PlayerDoc.name).Nodup ∧
    ((save_game (save_game ⟨[], []⟩ ⟨[], [], [], 0⟩ c7G1).1
        (save_game ⟨[], []⟩ ⟨[], [], [], 0⟩ c7G1).2.1 c7G2).2.1.events.map
      EventDoc.name).Nodup := by
  have h := C7_upsert_idempotent ⟨[], []⟩ ⟨[], [], [], 0⟩ c7G1 c7G2 rfl rfl rfl
    rfl (by decide) (by decide) (by decide)
  exact ⟨h.1.1,
    h.1.2 ⟨3, 0, 1, 2, "u", "0-1", some "m2", none, none⟩ (by decide)
      (by decide),
    h.2.1, h.2.2.1, h.2.2.2.1, h.2.2.2.2⟩

/-! ## C8: run-wide registry and dedup invariants -/

/-- Lookup succeeds exactly for registered keys. -/
theorem alookup_isSome_iff {β : Type} (k : String) (l : List (String × β)) :
    (alookup k l).isSome ↔ k ∈ l.map Prod.fst := by
  induction l with
  | nil => simp [alookup]
  | cons a t ih =>
    obtain ⟨k2, v⟩ := a
    by_cases hk : k2 = k
    · subst hk
      simp [alookup]
    · simp only [alookup, if_neg hk, List.map_cons, List.mem_cons, ih]
      exact ⟨Or.inr, fun h => h.elim (fun he => absurd he.symm hk) id⟩

/-- A successful lookup survives appending bindings at the tail. -/
theorem alookup_append_some {β : Type} (k : String) (l1 l2 : List (String × β))
    (v : β) (h : alookup k l1 = some v) : alookup k (l1 ++ l2) = some v := by
  induction l1 with
  | nil => simp [alookup] at h
  | cons a t ih =>
    obtain ⟨k2, v2⟩ := a
    by_cases hk : k2 = k
    · rw [List.cons_append]
      simp only [alookup, if_pos hk] at h ⊢
      exact h
    · rw [List.cons_append]
      simp only [alookup, if_neg hk] at h ⊢
      exact ih h

/-- Value update at a key leaves the key list unchanged. -/
theorem aupdate_keys {β : Type} (k : String) (f : β → β)
    (l : List (String × β)) :
    (aupdate k f l).map Prod.fst = l.map Prod.fst := by
  induction l with
  | nil => rfl
  | cons a t ih =>
    obtain ⟨k2, v⟩ := a
    by_cases hk : k2 = k
    · simp [aupdate, hk]
    · simp [aupdate, hk, ih]

/-- `save_game` never adds or removes player registry keys: it only
mutates the `id` values of registered players. -/
theorem save_game_reg_players_keys (reg : Reg) (st : Store) (g : PlayerGame) :
    (save_game reg st g).1.players.map Prod.fst = reg.players.map Prod.fst := by
  unfold save_game
  dsimp only
  by_cases h1 : (alookup g.red_player reg.players).isSome <;>
    by_cases h2 : (alookup g.black_player reg.players).isSome <;>
      simp [h1, h2, aupdate_keys]

/-- `save_game` touches the event registry only by inserting the game's
event name when it was absent. -/
theorem save_game_reg_events_keys (reg : Reg) (st : Store) (g : PlayerGame) :
    ((save_game reg st g).1.events.map Prod.fst =
        reg.events.map Prod.fst ∧ (alookup g.event reg.events).isSome) ∨
    ((save_game reg st g).1.events.map Prod.fst =
        reg.events.map Prod.fst ++ [g.event] ∧
      alookup g.event reg.events = none) := by
  unfold save_game
  dsimp only
  cases h : alookup g.event reg.events with
  | some e => left; exact ⟨rfl, rfl⟩
  | none => right; exact ⟨by simp, rfl⟩

/-- Names registered in the in-memory player dict. -/
def playKeys (s : CrawlState) : List String := s.reg.players.map Prod.fst

/-- Names registered in the in-memory event dict. -/
def evKeys (s : CrawlState) : List String := s.reg.events.map Prod.fst

/-- Run-wide registry invariant: player and event names are unique dict
keys, no name was ever appended to the discovery queue twice, and a name
is appended only when it enters the player registry. -/
def CrawlInv (s : CrawlState) : Prop :=
  (playKeys s).Nodup ∧ (evKeys s).Nodup ∧ s.appended.Nodup ∧
  ∀ n ∈ s.appended, n ∈ playKeys s

/-- A game the run has fully absorbed: identity in the dedup set, both
participant names and the event name registered. -/
def SeenAll (s : CrawlState) (g : PlayerGame) : Prop :=
  gameIdentity g ∈ s.games ∧ g.red_player ∈ playKeys s ∧
  g.black_player ∈ playKeys s ∧ g.event ∈ evKeys s

/-- The dedup block does not change the player registry keys. -/
theorem stepSeen_playKeys (s : CrawlState) (g : PlayerGame) :
    playKeys (stepSeen s g) = playKeys s := by
  unfold stepSeen playKeys
  by_cases hmem : gameIdentity g ∈ s.games
  · rw [if_pos hmem]
  · rw [if_neg hmem]
    dsimp only
    exact save_game_reg_players_keys s.reg s.store g

/-- The dedup block does not touch the append log. -/
theorem stepSeen_appended (s : CrawlState) (g : PlayerGame) :
    (stepSeen s g).appended = s.appended := by
  unfold stepSeen
  by_cases hmem : gameIdentity g ∈ s.games
  · rw [if_pos hmem]
  · rw [if_neg hmem]

/-- The dedup block records the identity and keeps earlier ones. -/
theorem stepSeen_games (s : CrawlState) (g : PlayerGame) :
    gameIdentity g ∈ (stepSeen s g).games ∧
    ∀ x ∈ s.games, x ∈ (stepSeen s g).games := by
  unfold stepSeen
  by_cases hmem : gameIdentity g ∈ s.games
  · rw [if_pos hmem]
    exact ⟨hmem, fun x hx => hx⟩
  · rw [if_neg hmem]
    dsimp only
    exact ⟨List.mem_cons_self _ _, fun x hx => List.mem_cons_of_mem _ hx⟩

/-- The dedup block only ever grows the event registry. -/
theorem stepSeen_evKeys_mono (s : CrawlState) (g : PlayerGame) :
    ∀ k ∈ evKeys s, k ∈ evKeys (stepSeen s g) := by
  intro k hk
  unfold stepSeen
  by_cases hmem : gameIdentity g ∈ s.games
  · rw [if_pos hmem]
    exact hk
  · rw [if_neg hmem]
    unfold evKeys at *
    dsimp only
    rcases save_game_reg_events_keys s.reg s.store g with ⟨he, _⟩ | ⟨he, _⟩
    · rw [he]; exact hk
    · rw [he]; exact List.mem_append_left _ hk

/-- The dedup block preserves the registry invariant. -/
theorem stepSeen_inv (s : CrawlState) (g : PlayerGame) (h : CrawlInv s) :
    CrawlInv (stepSeen s g) := by
  obtain ⟨h1, h2, h3, h4⟩ := h
  refine ⟨?_, ?_, ?_, ?_⟩
  · rw [stepSeen_playKeys]; exact h1
  · unfold stepSeen
    by_cases hmem : gameIdentity g ∈ s.games
    · rw [if_pos hmem]; exact h2
    · rw [if_neg hmem]
      unfold evKeys at *
      dsimp only
      rcases save_game_reg_events_keys s.reg s.store g with ⟨he, _⟩ | ⟨he, hn⟩
      · rw [he]; exact h2
      · rw [he]
        rw [List.nodup_append]
        refine ⟨h2, by simp, ?_⟩
        intro x hx hx2
        simp only [List.mem_singleton] at hx2
        subst hx2
        have hs := (alookup_isSome_iff g.event s.reg.events).mpr hx
        rw [hn] at hs
        simp at hs
  · rw [stepSeen_appended]; exact h3
  · intro n hn
    rw [stepSeen_appended] at hn
    rw [stepSeen_playKeys]
    exact h4 n hn

/-- The red-player block does not touch the dedup set. -/
theorem stepRed_games (s : CrawlState) (g : PlayerGame) :
    (stepRed s g).games = s.games := by
  unfold stepRed
  cases alookup g.red_player s.reg.players <;> rfl

/-- The red-player block does not touch the event registry. -/
theorem stepRed_evKeys (s : CrawlState) (g : PlayerGame) :
    evKeys (stepRed s g) = evKeys s := by
  unfold stepRed evKeys
  cases alookup g.red_player s.reg.players <;> rfl

/-- The red-player block registers the red name and keeps older ones. -/
theorem stepRed_playKeys (s : CrawlState) (g : PlayerGame) :
    g.red_player ∈ playKeys (stepRed s g) ∧
    ∀ k ∈ playKeys s, k ∈ playKeys (stepRed s g) := by
  unfold stepRed
  cases h : alookup g.red_player s.reg.players with
  | some p =>
    exact ⟨(alookup_isSome_iff _ _).mp (by rw [h]; rfl), fun k hk => hk⟩
  | none =>
    unfold playKeys
    dsimp only
    rw [List.map_append]
    exact ⟨List.mem_append_right _ (by simp),
      fun k hk => List.mem_append_left _ hk⟩

/-- The red-player block preserves the registry invariant. -/
theorem stepRed_inv (s : CrawlState) (g : PlayerGame) (h : CrawlInv s) :
    CrawlInv (stepRed s g) := by
  obtain ⟨h1, h2, h3, h4⟩ := h
  unfold stepRed
  cases hl : alookup g.red_player s.reg.players with
  | some p => exact ⟨h1, h2, h3, h4⟩
  | none =>
    have hred : g.red_player ∉ playKeys s := by
      intro hm
      have hs := (alookup_isSome_iff _ _).mpr hm
      rw [hl] at hs
      simp at hs
    have hredapp : g.red_player ∉ s.appended := fun hm => hred (h4 _ hm)
    unfold CrawlInv playKeys evKeys at *
    dsimp only
    refine ⟨?_, h2, ?_, ?_⟩
    · rw [List.map_append, List.nodup_append]
      refine ⟨h1, by simp, ?_⟩
      intro x hx hx2
      simp only [List.map_cons, List.map_nil, List.mem_singleton] at hx2
      subst hx2
      exact hred hx
    · rw [List.nodup_append]
      refine ⟨h3, by simp, ?_⟩
      intro x hx hx2
      simp only [List.mem_singleton] at hx2
      subst hx2
      exact hredapp hx
    · intro n hn
      rw [List.map_append]
      rcases List.mem_append.mp hn with hn | hn
      · exact List.mem_append_left _ (h4 n hn)
      · simp only [List.mem_singleton] at hn
        subst hn
        exact List.mem_append_right _ (by simp)

/-- The black-player block does not touch the dedup set. -/
theorem stepBlack_games (s : CrawlState) (g : PlayerGame) :
    (stepBlack s g).games = s.games := by
  unfold stepBlack
  cases alookup g.black_player s.reg.players <;> rfl

/-- The black-player block does not touch the event registry. -/
theorem stepBlack_evKeys (s : CrawlState) (g : PlayerGame) :
    evKeys (stepBlack s g) = evKeys s := by
  unfold stepBlack evKeys
  cases alookup g.black_player s.reg.players <;> rfl

/-- The black-player block registers the black name, keeping older
ones. -/
theorem stepBlack_playKeys (s : CrawlState) (g : PlayerGame) :
    g.black_player ∈ playKeys (stepBlack s g) ∧
    ∀ k ∈ playKeys s, k ∈ playKeys (stepBlack s g) := by
  unfold stepBlack
  cases h : alookup g.black_player s.reg.players with
  | some p =>
    exact ⟨(alookup_isSome_iff _ _).mp (by rw [h]; rfl), fun k hk => hk⟩
  | none =>
    unfold playKeys
    dsimp only
    rw [List.map_append]
    exact ⟨List.mem_append_right _ (by simp),
      fun k hk => List.mem_append_left _ hk⟩

/-- The black-player block preserves the registry invariant. -/
theorem stepBlack_inv (s : CrawlState) (g : PlayerGame) (h : CrawlInv s) :
    CrawlInv (stepBlack s g) := by
  obtain ⟨h1, h2, h3, h4⟩ := h
  unfold stepBlack
  cases hl : alookup g.black_player s.reg.players with
  | some p => exact ⟨h1, h2, h3, h4⟩
  | none =>
    have hbl : g.black_player ∉ playKeys s := by
      intro hm
      have hs := (alookup_isSome_iff _ _).mpr hm
      rw [hl] at hs
      simp at hs
    have hblapp : g.black_player ∉ s.appended := fun hm => hbl (h4 _ hm)
    unfold CrawlInv playKeys evKeys at *
    dsimp only
    refine ⟨?_, h2, ?_, ?_⟩
    · rw [List.map_append, List.nodup_append]
      refine ⟨h1, by simp, ?_⟩
      intro x hx hx2
      simp only [List.map_cons, List.map_nil, List.mem_singleton] at hx2
      subst hx2
      exact hbl hx
    · rw [List.nodup_append]
      refine ⟨h3, by simp, ?_⟩
      intro x hx hx2
      simp only [List.mem_singleton] at hx2
      subst hx2
      exact hblapp hx
    · intro n hn
      rw [List.map_append]
      rcases List.mem_append.mp hn with hn | hn
      · exact List.mem_append_left _ (h4 n hn)
      · simp only [List.mem_singleton] at hn
        subst hn
        exact List.mem_append_right _ (by simp)

/-- The event block does not touch the player registry. -/
theorem stepEvent_playKeys (s : CrawlState) (g : PlayerGame) :
    playKeys (stepEvent s g) = playKeys s := by
  unfold stepEvent playKeys
  cases alookup g.event s.reg.events <;> rfl

/-- The event block does not touch the dedup set. -/
theorem stepEvent_games (s : CrawlState) (g : PlayerGame) :
    (stepEvent s g).games = s.games := by
  unfold stepEvent
  cases alookup g.event s.reg.events <;> rfl

/-- The event block does not touch the append log. -/
theorem stepEvent_appended (s : CrawlState) (g : PlayerGame) :
    (stepEvent s g).appended = s.appended := by
  unfold stepEvent
  cases alookup g.event s.reg.events <;> rfl

/-- The event block registers the event name, keeping older ones. -/
theorem stepEvent_evKeys (s : CrawlState) (g : PlayerGame) :
    g.event ∈ evKeys (stepEvent s g) ∧
    ∀ k ∈ evKeys s, k ∈ evKeys (stepEvent s g) := by
  unfold stepEvent
  cases h : alookup g.event s.reg.events with
  | some e =>
    exact ⟨(alookup_isSome_iff _ _).mp (by rw [h]; rfl), fun k hk => hk⟩
  | none =>
    unfold evKeys
    dsimp only
    rw [List.map_append]
    exact ⟨List.mem_append_right _ (by simp),
      fun k hk => List.mem_append_left _ hk⟩

/-- The event block preserves the registry invariant. -/
theorem stepEvent_inv (s : CrawlState) (g : PlayerGame) (h : CrawlInv s) :
    CrawlInv (stepEvent s g) := by
  obtain ⟨h1, h2, h3, h4⟩ := h
  unfold stepEvent
  cases hl : alookup g.event s.reg.events with
  | some e => exact ⟨h1, h2, h3, h4⟩
  | none =>
    have hev : g.event ∉ evKeys s := by
      intro hm
      have hs := (alookup_isSome_iff _ _).mpr hm
      rw [hl] at hs
      simp at hs
    unfold CrawlInv playKeys evKeys at *
    dsimp only
    refine ⟨h1, ?_, h3, h4⟩
    rw [List.map_append, List.nodup_append]
    refine ⟨h2, by simp, ?_⟩
    intro x hx hx2
    simp only [List.map_cons, List.map_nil, List.mem_singleton] at hx2
    subst hx2
    exact hev hx

/-- On an already-seen identity the dedup block is a no-op. -/
theorem stepSeen_noop (s : CrawlState) (g : PlayerGame)
    (h : gameIdentity g ∈ s.games) : stepSeen s g = s := by
  unfold stepSeen
  rw [if_pos h]

/-- On a registered red name the red-player block is a no-op. -/
theorem stepRed_noop (s : CrawlState) (g : PlayerGame)
    (h : g.red_player ∈ playKeys s) : stepRed s g = s := by
  unfold stepRed
  obtain ⟨p, hp⟩ := Option.isSome_iff_exists.mp
    ((alookup_isSome_iff g.red_player s.reg.players).mpr h)
  rw [hp]

/-- On a registered black name the black-player block is a no-op. -/
theorem stepBlack_noop (s : CrawlState) (g : PlayerGame)
    (h : g.black_player ∈ playKeys s) : stepBlack s g = s := by
  unfold stepBlack
  obtain ⟨p, hp⟩ := Option.isSome_iff_exists.mp
    ((alookup_isSome_iff g.black_player s.reg.players).mpr h)
  rw [hp]

/-- On a registered event name the event block is a no-op. -/
theorem stepEvent_noop (s : CrawlState) (g : PlayerGame)
    (h : g.event ∈ evKeys s) : stepEvent s g = s := by
  unfold stepEvent
  obtain ⟨e, he⟩ := Option.isSome_iff_exists.mp
    ((alookup_isSome_iff g.event s.reg.events).mpr h)
  rw [he]

/-- After processing a game, its identity is marked seen and its names
are registered. -/
theorem processGame_estab (s : CrawlState) (g : PlayerGame) :
    SeenAll (processGame s g) g := by
  unfold processGame SeenAll
  refine ⟨?_, ?_, ?_, ?_⟩
  · rw [stepEvent_games, stepBlack_games, stepRed_games]
    exact (stepSeen_games s g).1
  · rw [stepEvent_playKeys]
    exact (stepBlack_playKeys _ g).2 _ (stepRed_playKeys _ g).1
  · rw [stepEvent_playKeys]
    exact (stepBlack_playKeys _ g).1
  · exact (stepEvent_evKeys _ g).1

/-- Processing any later game does not lose what the run has seen. -/
theorem processGame_mono (s : CrawlState) (g2 g : PlayerGame)
    (h : SeenAll s g) : SeenAll (processGame s g2) g := by
  obtain ⟨ha, hb, hc, hd⟩ := h
  unfold processGame SeenAll
  refine ⟨?_, ?_, ?_, ?_⟩
  · rw [stepEvent_games, stepBlack_games, stepRed_games]
    exact (stepSeen_games s g2).2 _ ha
  · rw [stepEvent_playKeys]
    apply (stepBlack_playKeys _ g2).2
    apply (stepRed_playKeys _ g2).2
    rw [stepSeen_playKeys]
    exact hb
  · rw [stepEvent_playKeys]
    apply (stepBlack_playKeys _ g2).2
    apply (stepRed_playKeys _ g2).2
    rw [stepSeen_playKeys]
    exact hc
  · apply (stepEvent_evKeys _ g2).2
    rw [stepBlack_evKeys, stepRed_evKeys]
    exact stepSeen_evKeys_mono s g2 _ hd

/-- Processing a fully-seen game is a no-op: no second in-memory Player
or Event is created, no queue entry is appended, nothing is persisted. -/
theorem processGame_noop (s : CrawlState) (g : PlayerGame)
    (h : SeenAll s g) : processGame s g = s := by
  obtain ⟨ha, hb, hc, hd⟩ := h
  unfold processGame
  rw [stepSeen_noop s g ha, stepRed_noop s g hb, stepBlack_noop s g hc,
    stepEvent_noop s g hd]

/-- One loop iteration preserves the registry invariant. -/
theorem processGame_inv (s : CrawlState) (g : PlayerGame) (h : CrawlInv s) :
    CrawlInv (processGame s g) :=
  stepEvent_inv _ _ (stepBlack_inv _ _ (stepRed_inv _ _ (stepSeen_inv _ _ h)))

/-- A whole page of games preserves the registry invariant. -/
theorem processGames_inv (gs : List PlayerGame) :
    ∀ s, CrawlInv s → CrawlInv (processGames s gs) := by
  induction gs with
  | nil => exact fun s h => h
  | cons g t ih => exact fun s h => ih _ (processGame_inv s g h)

/-- Seen games stay seen across a whole page. -/
theorem processGames_mono (gs : List PlayerGame) :
    ∀ s g, SeenAll s g → SeenAll (processGames s gs) g := by
  induction gs with
  | nil => exact fun s g h => h
  | cons g2 t ih => exact fun s g h => ih _ g (processGame_mono s g2 g h)

/-- After one pass over a page every game of the page is seen. -/
theorem processGames_estab (gs : List PlayerGame) :
    ∀ s, ∀ g ∈ gs, SeenAll (processGames s gs) g := by
  induction gs with
  | nil => intro s g hg; exact absurd hg (List.not_mem_nil g)
  | cons g2 t ih =>
    intro s g hg
    rcases List.mem_cons.mp hg with hg | hg
    · subst hg
      exact processGames_mono t _ g (processGame_estab s g)
    · exact ih (processGame s g2) g hg

/-- A pass over fully-seen games changes nothing. -/
theorem processGames_noop (gs : List PlayerGame) :
    ∀ s, (∀ g ∈ gs, SeenAll s g) → processGames s gs = s := by
  induction gs with
  | nil => intro s _; rfl
  | cons g t ih =>
    intro s h
    show processGames (processGame s g) t = s
    rw [processGame_noop s g (h g (List.mem_cons_self g t))]
    exact ih s (fun g2 hg2 => h g2 (List.mem_cons_of_mem g hg2))

/-- C8: throughout a run, the player registry maps each name to at most
one record and each name is appended to the discovery queue at most once
(the invariant is preserved by any page of games); after one pass over a
page every identity is in the dedup set, and re-processing the same page
is the identity — in particular it creates no second in-memory Player or
Event for names already registered. -/
theorem C8_registry_dedup (s : CrawlState) (gs : List PlayerGame)
    (h : CrawlInv s) :
    CrawlInv (processGames s gs) ∧
    (∀ g ∈ gs, SeenAll (processGames s gs) g) ∧
    processGames (processGames s gs) gs = processGames s gs :=
  ⟨processGames_inv gs s h, processGames_estab gs s,
    processGames_noop gs _ (processGames_estab gs s)⟩

/-- Empty starting state of the C8 witness. -/
def c8S0 : CrawlState := ⟨⟨[], []⟩, ⟨[], [], [], 0⟩, [], [], []⟩

/-- The one game of the C8 witness page. -/
def c8G : PlayerGame :=
  ⟨"R", "B", "E", "u", "1-0", none, none, none, none, none, none, none⟩

/-- Witness for C8 on a concrete one-game page processed from the empty
state: the invariant holds afterwards, the game is seen, and the second
pass changes nothing. -/
theorem C8_registry_dedup_witness :
    CrawlInv (processGames c8S0 [c8G]) ∧
    SeenAll (processGames c8S0 [c8G]) c8G ∧
    processGames (processGames c8S0 [c8G]) [c8G] = processGames c8S0 [c8G] := by
  have h := C8_registry_dedup c8S0 [c8G]
    ⟨by decide, by decide, by decide, by decide⟩
  exact ⟨h.1, h.2.1 c8G (List.mem_cons_self _ _), h.2.2⟩

end Kydao
